import Mathlib

/-!
Verification of the XunTracker workout CLI (`src/workout.py`).

The document (the single markdown data file) is modelled as a list of
characters.  Python floats are modelled as exact rationals; Python ints as
integers.  The module-level data file is modelled by passing the document
content explicitly into each operation and returning the updated content.
Python whitespace handling is modelled for newline-delimited ASCII-spaced
text (the character classes `\s`, `\d` and `str.strip` are taken at their
ASCII meaning, and `str.splitlines` splits at newline characters).
-/

namespace XunTracker

abbrev Chars := List Char

/-- Python whitespace (the ASCII characters recognised by `str.strip` / `\s`). -/
def pyIsSpace (c : Char) : Bool :=
  c = ' ' || c = '\t' || c = '\n' || c = '\r' || c = '\x0b' || c = '\x0c'

/-- ASCII decimal digit, the `\d` class of the source's regexes. -/
def isDig (c : Char) : Bool := 48 ≤ c.toNat && c.toNat ≤ 57

/-- The `[\d.]` character class of the personal-record scan. -/
def isDigDot (c : Char) : Bool := isDig c || c = '.'

/-- The characters that can occur in a rendered number (digits, the decimal
point and a leading minus sign). -/
def isNumChar (c : Char) : Bool := isDig c || c = '.' || c = '-'

/-- Python `str.strip()`: drop whitespace from both ends. -/
def pyStrip (s : Chars) : Chars :=
  ((s.dropWhile pyIsSpace).reverse.dropWhile pyIsSpace).reverse

/-- Python `str.split(sep)` for a one-character separator: splits keeping
empty parts, and always returns at least one part. -/
def splitChar (sep : Char) : Chars → List Chars
  | [] => [[]]
  | c :: rest =>
    if c = sep then [] :: splitChar sep rest
    else
      match splitChar sep rest with
      | [] => [[c]]
      | h :: t => (c :: h) :: t

/-- Python `str.splitlines()` on newline-delimited text: like splitting at
newlines, except that a trailing newline does not produce a final empty
line and the empty string has no lines. -/
def splitLines (s : Chars) : List Chars :=
  if s = [] then []
  else
    let parts := splitChar '\n' s
    if parts.getLast? = some [] then parts.dropLast else parts

/-- Leftmost-occurrence search: `splitFirst pat s = some (a, b)` when
`s = a ++ pat ++ b` and `pat` occurs nowhere earlier.  This models both
Python's substring test `pat in s` and `re.subn` replacing the first
occurrence of a literal pattern. -/
def splitFirst (pat : Chars) : Chars → Option (Chars × Chars)
  | [] => if pat = [] then some ([], []) else none
  | c :: rest =>
    if pat.isPrefixOf (c :: rest) then some ([], (c :: rest).drop pat.length)
    else (splitFirst pat rest).map (fun pr => (c :: pr.1, pr.2))

/-- Python's substring containment test `pat in s`. -/
def containsSub (pat s : Chars) : Bool := (splitFirst pat s).isSome

/-- Python `str.lower()` restricted to its ASCII action. -/
def lowerChar (c : Char) : Char :=
  if 'A' ≤ c && c ≤ 'Z' then Char.ofNat (c.toNat + 32) else c

def lowerStr (s : Chars) : Chars := s.map lowerChar

/-- Length of the longest run of characters satisfying `p` at the head. -/
def countLeading (p : Char → Bool) : Chars → ℕ
  | [] => 0
  | c :: rest => if p c then countLeading p rest + 1 else 0

/-! ### Decimal rendering and parsing (Python `str`/`float` on the values
the program writes and reads back) -/

def digitChar : ℕ → Char
  | 0 => '0'
  | 1 => '1'
  | 2 => '2'
  | 3 => '3'
  | 4 => '4'
  | 5 => '5'
  | 6 => '6'
  | 7 => '7'
  | 8 => '8'
  | _ => '9'

/-- Digit accumulator for `renderNat`; the fuel argument (at least the
number of digits) makes it evaluate by kernel reduction. -/
def renderNatAux : ℕ → ℕ → Chars → Chars
  | 0, _, acc => acc
  | fuel + 1, n, acc =>
    if n = 0 then acc else renderNatAux fuel (n / 10) (digitChar (n % 10) :: acc)

/-- Decimal rendering of a natural number, as Python `str` prints it. -/
def renderNat (n : ℕ) : Chars :=
  if n = 0 then ['0'] else renderNatAux n n []

/-- Decimal rendering of an integer, as Python `str` prints it. -/
def renderInt (z : ℤ) : Chars :=
  if z < 0 then '-' :: renderNat (-z).toNat else renderNat z.toNat

/-- Value of a string of decimal digits. -/
def parseNatVal (s : Chars) : ℕ := s.foldl (fun a c => a * 10 + (c.toNat - 48)) 0

/-- Python `float(w)` on the strings matched by the `[\d.]+` capture of the
personal-record scan: at most one dot and at least one digit, otherwise a
`ValueError` (`none`).  The value of `w.f` is `w + f / 10 ^ |f|`, built with
`mkRat` so that it evaluates by kernel reduction. -/
def parsePyFloat (s : Chars) : Option ℚ :=
  match splitChar '.' s with
  | [w] => if w ≠ [] && w.all isDig then some (mkRat (parseNatVal w) 1) else none
  | [w, f] =>
    if (w ++ f) ≠ [] && (w ++ f).all isDig then
      some (mkRat (parseNatVal w * 10 ^ f.length + parseNatVal f) (10 ^ f.length))
    else none
  | _ => none

/-- The rationals with a finite decimal expansion; exactly these model the
floats whose Python `str` form the program writes and re-reads exactly. -/
def Renderable (q : ℚ) : Prop := q.den ∣ 10 ^ q.den

instance (q : ℚ) : Decidable (Renderable q) := by
  unfold Renderable; infer_instance

/-- Number of digits printed after the decimal point for denominator `d`:
the least `k` with `d ∣ 10 ^ k` (searched below the always-sufficient bound
`d`). -/
def fracLenD (d : ℕ) : ℕ :=
  (((List.range (d + 1)).find? (fun k => decide (d ∣ 10 ^ k))).getD d)

/-- Decimal rendering of the non-negative value `n / d` (for `d` dividing a
power of ten), as Python `str` prints the corresponding float: always with
a decimal point and no trailing zeros (e.g. `100.0`, `12.5`, `0.05`). -/
def renderDec (n d : ℕ) : Chars :=
  let k := fracLenD d
  let N := n * (10 ^ k / d)
  if k = 0 then renderNat N ++ ['.', '0']
  else
    renderNat (N / 10 ^ k) ++
      '.' :: (List.replicate (k - (renderNat (N % 10 ^ k)).length) '0' ++ renderNat (N % 10 ^ k))

/-- Python `str` of a float value, modelled on exact rationals (rendered
from the numerator and denominator, with the sign in front). -/
def renderPyFloat (q : ℚ) : Chars :=
  if q.num < 0 then '-' :: renderDec (-q.num).toNat q.den else renderDec q.num.toNat q.den

/-- Python's binary `max` on two floats, as the `max(...)` loop computes it
(written with `Rat.blt` so that it evaluates by kernel reduction; equal to
`max` by `pyMax_eq_max` below). -/
def pyMax (a b : ℚ) : ℚ := if Rat.blt a b then b else a

/-- Multiplication of a Python int by a Python float (written with `mkRat`
so that it evaluates by kernel reduction; equal to `(z : ℚ) * q` by
`intMulRat_eq` below). -/
def intMulRat (z : ℤ) (q : ℚ) : ℚ := mkRat (z * q.num) q.den

/-! ### Embedding of `src/workout.py` -/

/-- The registry heading pattern `## 可用动作\n` of `get_actions` and
`action_add`. -/
def headingChars : Chars := "## 可用动作\n".toList

/-- Helper for `get_actions`: the non-greedy `(.+?)\n##` tail of the section
regex.  `sectionTailAux [] t` returns the shortest non-empty prefix of `t`
that is followed by `\n##`, if any. -/
def sectionTailAux (acc : Chars) : Chars → Option Chars
  | [] => none
  | c :: rest =>
    if acc ≠ [] && ("\n##".toList).isPrefixOf (c :: rest) then some acc.reverse
    else sectionTailAux (c :: acc) rest

/-- Leftmost match of `re.search(r"## 可用动作\n(.+?)\n##", content, re.DOTALL)`:
the first heading occurrence after which a `\n##`-terminated non-empty
section text exists, returning that section text (group 1). -/
def getActionsSection : Chars → Option Chars
  | [] => none
  | c :: rest =>
    if headingChars.isPrefixOf (c :: rest) then
      match sectionTailAux [] ((c :: rest).drop headingChars.length) with
      | some sec => some sec
      | none => getActionsSection rest
    else getActionsSection rest

/-- `get_actions` of the source: extract the bullet lines of the registry
section, stripped and with the leading `- ` removed. -/
def get_actions (content : Chars) : List Chars :=
  match getActionsSection content with
  | some sec =>
    ((splitChar '\n' (pyStrip sec)).filter
        (fun l => ("- ".toList).isPrefixOf (pyStrip l))).map
      (fun l => (pyStrip l).drop 2)
  | none => []

/-- The fixed template written by `initialize_storage`. -/
def template : Chars :=
  ("# 我的训练日志\n\n## 可用动作\n- 深蹲 (Squat)\n- 卧推 (Bench Press)\n- 硬拉 (Deadlift)\n\n## 训练目标\n- 深蹲: 120 kg\n- 卧推: 100 kg\n\n").toList

/-- `initialize_storage`: the backing file modelled as `Option Chars`
(`none` = absent).  Creates the template exactly when the file is absent. -/
def initialize_storage (file : Option Chars) : Option Chars :=
  match file with
  | some c => some c
  | none => some template

inductive AddErr
  | duplicate
  | sectionNotFound
deriving DecidableEq

/-- `action_add`: fails on a case-sensitively duplicated name, otherwise
inserts the bullet line right after the first occurrence of the registry
heading; fails if the heading is absent.  Returns the (possibly unchanged)
document and the outcome. -/
def action_add (content name : Chars) : Chars × Except AddErr Unit :=
  if name ∈ get_actions content then (content, Except.error AddErr.duplicate)
  else
    match splitFirst headingChars content with
    | some (pre, post) =>
      (pre ++ headingChars ++ ("- ".toList ++ name ++ ['\n']) ++ post, Except.ok ())
    | none => (content, Except.error AddErr.sectionNotFound)

/-! The personal-record scan
`re.findall(rf"\|\s*{re.escape(matched_action)}\s*\|\s*\d+\s*\|\s*\d+\s*\|\s*([\d.]+)\s*\|", content)`
is embedded as a backtracking matcher over the token shape of that regex
(`re.escape` makes the action name a literal). -/

inductive Tok
  | lit (cs : Chars)
  | ws
  | digs
  | cap

/-- Backtracking matcher for a token list (greedy `*`/`+`, longest first),
with at most one capture group.  On success returns the capture (if the
pattern contains one) and the remainder of the input after the match.
The fuel argument is the number of tokens still to match. -/
def toksMatchF : ℕ → List Tok → Chars → Option (Option Chars × Chars)
  | 0, _, _ => none
  | _ + 1, [], s => some (none, s)
  | fuel + 1, Tok.lit cs :: ts, s =>
    if cs.isPrefixOf s then toksMatchF fuel ts (s.drop cs.length) else none
  | fuel + 1, Tok.ws :: ts, s =>
    ((List.range (countLeading pyIsSpace s + 1)).reverse).findSome?
      (fun i => toksMatchF fuel ts (s.drop i))
  | fuel + 1, Tok.digs :: ts, s =>
    (((List.range (countLeading isDig s + 1)).reverse).filter (fun i => i ≠ 0)).findSome?
      (fun i => toksMatchF fuel ts (s.drop i))
  | fuel + 1, Tok.cap :: ts, s =>
    (((List.range (countLeading isDigDot s + 1)).reverse).filter (fun i => i ≠ 0)).findSome?
      (fun i =>
        match toksMatchF fuel ts (s.drop i) with
        | some (none, rest) => some (some (s.take i), rest)
        | some (some g, rest) => some (some g, rest)
        | none => none)

/-- The token shape of the personal-record row regex for action name `A`. -/
def prPat (A : Chars) : List Tok :=
  [Tok.lit ['|'], Tok.ws, Tok.lit A, Tok.ws, Tok.lit ['|'], Tok.ws, Tok.digs, Tok.ws,
    Tok.lit ['|'], Tok.ws, Tok.digs, Tok.ws, Tok.lit ['|'], Tok.ws, Tok.cap, Tok.ws,
    Tok.lit ['|']]

/-- One match attempt of the personal-record regex at the head of `s`. -/
def prMatch (A s : Chars) : Option (Option Chars × Chars) :=
  toksMatchF 18 (prPat A) s

/-- `re.findall` of the personal-record regex: scan left to right, collect
the capture of each leftmost non-overlapping match.  The fuel starts at the
input length; every step consumes at least one character. -/
def scanPRAux (A : Chars) : ℕ → Chars → List Chars
  | 0, _ => []
  | _ + 1, [] => []
  | fuel + 1, c :: rest =>
    match prMatch A (c :: rest) with
    | some (some g, rem) => g :: scanPRAux A fuel rem
    | some (none, rem) => scanPRAux A fuel rem
    | none => scanPRAux A fuel rest

def scanPR (A s : Chars) : List Chars := scanPRAux A s.length s

inductive RecordErr
  | actionNotFound
  | badWeightCell
deriving DecidableEq

structure RecordResult where
  matchedAction : Chars
  volume : ℚ
  isPR : Bool
  previousMax : ℚ
deriving DecidableEq

/-- The fixed table header (with separator row) written for a new date
section. -/
def table_header : Chars :=
  ("| 动作 (Action) | 组数 (Sets) | 次数 (Rps) | 重量 (KG) | 训练量 (Volume) |\n|---------------|-------------|------------|-----------|-----------------|").toList

/-- The first line of the fixed table header. -/
def table_header_row : Chars :=
  "| 动作 (Action) | 组数 (Sets) | 次数 (Rps) | 重量 (KG) | 训练量 (Volume) |".toList

/-- The separator line of the fixed table header. -/
def table_header_sep : Chars :=
  "|---------------|-------------|------------|-----------|-----------------|".toList

/-- The table row `record` writes. -/
def mkRow (A : Chars) (sets reps : ℤ) (kg volume : ℚ) : Chars :=
  "| ".toList ++ A ++ " | ".toList ++ renderInt sets ++ " | ".toList ++ renderInt reps ++
    " | ".toList ++ renderPyFloat kg ++ " | ".toList ++ renderPyFloat volume ++ " |".toList

/-- `record`: resolve the query case-insensitively against the registry
(first match wins), compute volume and the personal-record scan, then append
the row (a fresh date section when today's heading is not yet a substring of
the document).  `badWeightCell` models the uncaught `ValueError` of
`float(w)` on a malformed captured weight, which occurs before any write. -/
def record (content today action_name : Chars) (reps : ℤ) (kg : ℚ) (sets : ℤ) :
    Chars × Except RecordErr RecordResult :=
  let actions := get_actions content
  match actions.find? (fun a => containsSub (lowerStr action_name) (lowerStr a)) with
  | none => (content, Except.error RecordErr.actionNotFound)
  | some matched =>
    let volume : ℚ := intMulRat (sets * reps) kg
    let dateHeader := "## ".toList ++ today
    let newRow := mkRow matched sets reps kg volume
    match (scanPR matched content).mapM parsePyFloat with
    | none => (content, Except.error RecordErr.badWeightCell)
    | some weights =>
      let previousMax : ℚ := match weights with | [] => 0 | w :: rest => rest.foldl pyMax w
      let isPR := decide (previousMax < kg)
      let newContent :=
        if containsSub dateHeader content then content ++ '\n' :: newRow
        else content ++ "\n\n".toList ++ dateHeader ++ '\n' :: table_header ++ '\n' :: newRow
      (newContent, Except.ok ⟨matched, volume, isPR, previousMax⟩)

/-! ### `history` -/

/-- `re.match(r"## (\d{4}-\d{2}-\d{2})", line)` (applied to the stripped
line): an anchored match of the date-heading shape, returning the date. -/
def parseDateHead (s : Chars) : Option Chars :=
  match s with
  | '#' :: '#' :: ' ' :: a :: b :: c :: d :: '-' :: e :: f :: '-' :: g :: h :: _ =>
    if isDig a && isDig b && isDig c && isDig d && isDig e && isDig f && isDig g && isDig h
    then some [a, b, c, d, '-', e, f, '-', g, h]
    else none
  | _ => none

structure HistEntry where
  date : Chars
  action : Chars
  sets : Chars
  reps : Chars
  kg : Chars
  volume : Chars
deriving DecidableEq

/-- One line of the `history` loop: date headings update the current date;
under a known date, a line whose stripped form starts with `|`, that does
not contain `---` anywhere, that splits into exactly 7 parts and whose
(stripped) action cell is non-empty and does not contain `Action`, is
decoded into an entry. -/
def history_step (st : Option Chars × List HistEntry) (line : Chars) :
    Option Chars × List HistEntry :=
  match parseDateHead (pyStrip line) with
  | some d => (some d, st.2)
  | none =>
    match st.1 with
    | none => st
    | some cur =>
      if (['|'].isPrefixOf (pyStrip line)) && !containsSub "---".toList line then
        match (splitChar '|' (pyStrip line)).map pyStrip with
        | [_, action, sets, reps, kg, volume, _] =>
          if action ≠ [] && !containsSub "Action".toList action then
            (st.1, st.2 ++ [⟨cur, action, sets, reps, kg, volume⟩])
          else st
        | _ => st
      else st

/-- `history`: the decoded entries, in file order. -/
def history (content : Chars) : List HistEntry :=
  ((splitLines content).foldl history_step (none, [])).2

/-- The current-date state after processing a document, used to state when a
row appended at the end of the file is visible to `history`. -/
def historyDate (content : Chars) : Option Chars :=
  ((splitLines content).foldl history_step (none, [])).1

/-! ### Specification-side definitions (formalising the claims' wording, for
comparison with the code-side functions above) -/

/-- The claim's reading of the registry listing: the lines of the section
that begin with the bullet marker, trimmed of the marker, in order. -/
def specListActions (sec : Chars) : List Chars :=
  (splitChar '\n' sec).filterMap
    (fun l => if ("- ".toList).isPrefixOf l then some (l.drop 2) else none)

/-- The maximum the source computes from the parsed weights (`max(...)` of a
non-empty list, `0.0` for the empty one). -/
def listMax0 (ws : List ℚ) : ℚ :=
  match ws with
  | [] => 0
  | w :: rest => rest.foldl pyMax w

/-- The most recent date heading among a list of lines, if any. -/
def lastDateOf (ls : List Chars) : Option Chars :=
  (ls.filterMap (fun l => parseDateHead (pyStrip l))).getLast?

/-- Declarative per-line decoding with the same conditions as the `history`
loop: stripped line starts with the delimiter, the raw line contains no
`---` anywhere, exactly 7 cells, non-empty action cell not containing
`Action`. -/
def decodeRow (d line : Chars) : Option HistEntry :=
  if (['|'].isPrefixOf (pyStrip line)) && !containsSub "---".toList line then
    match (splitChar '|' (pyStrip line)).map pyStrip with
    | [_, action, sets, reps, kg, volume, _] =>
      if action ≠ [] && !containsSub "Action".toList action then
        some ⟨d, action, sets, reps, kg, volume⟩
      else none
    | _ => none
  else none

/-- Declarative (index-based) characterisation of `history`: line `i` is
decoded exactly when some date heading precedes it, tagged with the most
recent preceding one. -/
def specHL (ls : List Chars) : List HistEntry :=
  (List.range ls.length).filterMap (fun i =>
    (ls.get? i).bind (fun line =>
      (lastDateOf (ls.take i)).bind (fun d => decodeRow d line)))

def specHistory (content : Chars) : List HistEntry :=
  specHL (splitLines content)

/-- Per-line decoding exactly as claim C4 words it: the line (stripped)
starts with the column delimiter, is not the separator row, splits into
exactly 7 parts, and has a non-empty action cell that is not the literal
header label. -/
def decodeRowOrig (d line : Chars) : Option HistEntry :=
  if (['|'].isPrefixOf (pyStrip line)) &&
      !((pyStrip line).all (fun c => c = '|' || c = '-')) then
    match (splitChar '|' (pyStrip line)).map pyStrip with
    | [_, action, sets, reps, kg, volume, _] =>
      if action ≠ [] && action ≠ "动作 (Action)".toList then
        some ⟨d, action, sets, reps, kg, volume⟩
      else none
    | _ => none
  else none

/-- A small document with a one-entry registry, used for concrete runs. -/
def cexBase : Chars := "## 可用动作\n- S\n\n## X\n".toList

/-- The document after one `record` of action `S` at 2.0 kg on 2025-01-01. -/
def cexDoc1 : Chars :=
  (record cexBase ("2025-01-01".toList) ("S".toList) 1 (mkRat 2 1) 1).1

/-- A document whose registry contains the entry `Action`, used to show that
a successfully recorded row can be invisible to `history`. -/
def cexActionDoc : Chars := "## 可用动作\n- Action\n\n## X\n".toList

/-- Claim C1's reading of a row's contribution to the previous maximum: a
line that splits into exactly 7 cells whose stripped action cell equals the
matched name exactly contributes the float value of its weight cell. -/
def specRowWeight (A : Chars) (line : Chars) : Option ℚ :=
  match (splitChar '|' (pyStrip line)).map pyStrip with
  | [_, action, _, _, kgc, _, _] => if action = A then parsePyFloat kgc else none
  | _ => none

/-- The weight-column values of all table rows whose action cell exactly
equals `A`, as claim C1 words the scan. -/
def specPrevWeights (A content : Chars) : List ℚ :=
  (splitLines content).filterMap (specRowWeight A)

/-- Claim C1's previous maximum: the maximum of those weights, `0.0` if
there are none. -/
def specPrevMax (A content : Chars) : ℚ := listMax0 (specPrevWeights A content)

/-- A document whose only table row has action cell `x` but carries the
registry entry `S` in its sets column, so the textual row scan of `record`
matches it even though no action cell equals `S`. -/
def cexSkewDoc : Chars :=
  "## 可用动作\n- S\n\n## X\n| x | S | 1 | 2 | 9.0 |".toList

/-- Claim C4's stated decoding rule, applied over the whole document. -/
def specHistoryOrig (content : Chars) : List HistEntry :=
  let ls := splitLines content
  (List.range ls.length).filterMap (fun i =>
    (ls.get? i).bind (fun line =>
      (lastDateOf (ls.take i)).bind (fun d => decodeRowOrig d line)))

instance {ε α : Type} [DecidableEq ε] [DecidableEq α] : DecidableEq (Except ε α) := by
  intro a b
  cases a <;> cases b
  case error.error x y =>
    exact if h : x = y then isTrue (by rw [h]) else isFalse (by intro hh; cases hh; exact h rfl)
  case error.ok x y => exact isFalse (by intro hh; cases hh)
  case ok.error x y => exact isFalse (by intro hh; cases hh)
  case ok.ok x y =>
    exact if h : x = y then isTrue (by rw [h]) else isFalse (by intro hh; cases hh; exact h rfl)

/-! ### General helper lemmas -/

theorem renderNatAux_zero (fuel : ℕ) (acc : Chars) : renderNatAux fuel 0 acc = acc := by
  cases fuel <;> rfl

theorem renderNatAux_digits (fuel : ℕ) :
    ∀ n acc, n ≤ fuel → n ≠ 0 →
      renderNatAux fuel n acc = ((Nat.digits 10 n).map digitChar).reverse ++ acc := by
  induction fuel with
  | zero => intro n acc hle hn; omega
  | succ fuel ih =>
    intro n acc hle hn
    show (if n = 0 then acc
      else renderNatAux fuel (n / 10) (digitChar (n % 10) :: acc)) =
        ((Nat.digits 10 n).map digitChar).reverse ++ acc
    rw [if_neg hn]
    rw [Nat.digits_def' (by norm_num : 1 < 10) (Nat.pos_of_ne_zero hn)]
    by_cases hq : n / 10 = 0
    · rw [hq, renderNatAux_zero]
      simp
    · have hlt : n / 10 < n := Nat.div_lt_self (Nat.pos_of_ne_zero hn) (by norm_num)
      rw [ih (n / 10) (digitChar (n % 10) :: acc) (by omega) hq]
      simp

/-- `renderNat` agrees with the `Nat.digits` rendering. -/
theorem renderNat_eq_digits (n : ℕ) :
    renderNat n = if n = 0 then ['0'] else ((Nat.digits 10 n).map digitChar).reverse := by
  unfold renderNat
  by_cases hn : n = 0
  · rw [if_pos hn, if_pos hn]
  · rw [if_neg hn, if_neg hn, renderNatAux_digits n n [] le_rfl hn, List.append_nil]

/-- The loop-friendly binary maximum agrees with `max`. -/
theorem pyMax_eq_max (a b : ℚ) : pyMax a b = max a b := by
  unfold pyMax
  by_cases h : a.blt b = true
  · rw [if_pos h, max_eq_right (le_of_lt (show a < b from h))]
  · rw [if_neg h, max_eq_left (le_of_not_lt (fun hlt => h (show a.blt b = true from hlt)))]

/-- The kernel-friendly int-times-rat agrees with the cast product. -/
theorem intMulRat_eq (z : ℤ) (q : ℚ) : intMulRat z q = (z : ℚ) * q := by
  unfold intMulRat
  rw [Rat.mkRat_eq_divInt, Rat.divInt_eq_div]
  conv_rhs => rw [← Rat.num_div_den q]
  push_cast
  ring

theorem find?_split {α : Type} (p : α → Bool) :
    ∀ (l : List α) (a : α), l.find? p = some a →
      ∃ l1 l2, l = l1 ++ a :: l2 ∧ p a = true ∧ ∀ x ∈ l1, p x = false := by
  intro l
  induction l with
  | nil => intro a hf; simp [List.find?] at hf
  | cons h t ih =>
    intro a hf
    by_cases hb : p h = true
    · rw [List.find?_cons_of_pos _ hb] at hf
      injection hf with heq
      subst heq
      exact ⟨[], t, rfl, hb, by intro x hx; cases hx⟩
    · rw [List.find?_cons_of_neg _ hb] at hf
      obtain ⟨l1, l2, hl, hp, hall⟩ := ih a hf
      exact ⟨h :: l1, l2, by rw [hl]; rfl, hp, by
        intro x hx
        cases hx with
        | head => exact Bool.eq_false_iff.mpr hb
        | tail _ hx2 => exact hall x hx2⟩

theorem filter_map_strip_eq (ls : List Chars) (h : ∀ l ∈ ls, pyStrip l = l) :
    ((ls.filter (fun l => (['-', ' '] : Chars).isPrefixOf (pyStrip l))).map
        (fun l => (pyStrip l).drop 2)) =
      ls.filterMap (fun l => if (['-', ' '] : Chars).isPrefixOf l then some (l.drop 2) else none) := by
  induction ls with
  | nil => rfl
  | cons x xs ih =>
    have hx : pyStrip x = x := h x (List.mem_cons_self x xs)
    have hxs : ∀ l ∈ xs, pyStrip l = l := fun l hl => h l (List.mem_cons_of_mem x hl)
    by_cases hp : (['-', ' '] : Chars) <+: x
    · simp [List.filter_cons, List.filterMap_cons, hx, hp, ih hxs]
    · simp [List.filter_cons, List.filterMap_cons, hx, hp, ih hxs]

/-! ### Lemmas about line splitting -/

theorem splitChar_ne_nil (sep : Char) (s : Chars) : splitChar sep s ≠ [] := by
  cases s with
  | nil => simp [splitChar]
  | cons c rest =>
    unfold splitChar
    by_cases hc : c = sep
    · simp [hc]
    · rw [if_neg hc]
      cases splitChar sep rest <;> simp

theorem splitChar_cons_sep (sep : Char) (rest : Chars) :
    splitChar sep (sep :: rest) = [] :: splitChar sep rest := by
  simp [splitChar]

theorem splitChar_cons_of_ne (sep c : Char) (rest : Chars) (hc : ¬c = sep)
    (h : Chars) (t : List Chars) (hh : splitChar sep rest = h :: t) :
    splitChar sep (c :: rest) = (c :: h) :: t := by
  conv_lhs => rw [splitChar]
  rw [if_neg hc, hh]

theorem splitChar_append_sep (sep : Char) (xs ys : Chars) :
    splitChar sep (xs ++ sep :: ys) = splitChar sep xs ++ splitChar sep ys := by
  induction xs with
  | nil => simp [splitChar_cons_sep, splitChar]
  | cons c xs ih =>
    by_cases hc : c = sep
    · subst hc
      rw [List.cons_append, splitChar_cons_sep, ih, splitChar_cons_sep]
      rfl
    · obtain ⟨h, t, hh⟩ := List.exists_cons_of_ne_nil (splitChar_ne_nil sep xs)
      have hh2 : splitChar sep (xs ++ sep :: ys) = h :: (t ++ splitChar sep ys) := by
        rw [ih, hh]; rfl
      rw [List.cons_append, splitChar_cons_of_ne sep c _ hc h (t ++ splitChar sep ys) hh2,
        splitChar_cons_of_ne sep c xs hc h t hh]
      rfl

theorem splitChar_no_sep (sep : Char) (xs : Chars) (h : ∀ c ∈ xs, c ≠ sep) :
    splitChar sep xs = [xs] := by
  induction xs with
  | nil => rfl
  | cons c xs ih =>
    unfold splitChar
    rw [if_neg (h c (List.mem_cons_self c xs)),
      ih (fun d hd => h d (List.mem_cons_of_mem c hd))]

theorem getLast_splitChar_empty (sep : Char) :
    ∀ s : Chars, (splitChar sep s).getLast? = some [] → s = [] ∨ s.getLast? = some sep := by
  intro s
  induction s with
  | nil => intro _; exact Or.inl rfl
  | cons c rest ih =>
    intro hlast
    by_cases hc : c = sep
    · subst hc
      obtain ⟨h, t, hh⟩ := List.exists_cons_of_ne_nil (splitChar_ne_nil c rest)
      rw [splitChar_cons_sep, hh, List.getLast?_cons_cons] at hlast
      rcases ih (hh ▸ hlast) with h1 | h2
      · subst h1
        exact Or.inr rfl
      · obtain ⟨x, t2, hx⟩ := List.exists_cons_of_ne_nil
          (show rest ≠ [] by intro hr; rw [hr] at h2; cases h2)
        rw [hx, List.getLast?_cons_cons, ← hx]
        exact Or.inr h2
    · obtain ⟨h, t, hh⟩ := List.exists_cons_of_ne_nil (splitChar_ne_nil sep rest)
      rw [splitChar_cons_of_ne sep c rest hc h t hh] at hlast
      cases t with
      | nil =>
        simp at hlast
      | cons t1 t2 =>
        rw [List.getLast?_cons_cons] at hlast
        have hrest : (splitChar sep rest).getLast? = some [] := by
          rw [hh, List.getLast?_cons_cons]
          exact hlast
        rcases ih hrest with h1 | h2
        · rw [h1] at hh
          simp [splitChar] at hh
        · obtain ⟨x, t3, hx⟩ := List.exists_cons_of_ne_nil
            (show rest ≠ [] by intro hr; rw [hr] at h2; cases h2)
          rw [hx, List.getLast?_cons_cons, ← hx]
          exact Or.inr h2

theorem splitLines_append (xs ys : Chars) :
    splitLines (xs ++ '\n' :: ys) = splitChar '\n' xs ++ splitLines ys := by
  have hne : xs ++ '\n' :: ys ≠ [] := by simp
  rw [splitLines, if_neg hne]
  simp only [splitChar_append_sep]
  by_cases hys : ys = []
  · subst hys
    rw [show splitChar '\n' ([] : Chars) = [[]] from rfl]
    rw [show splitLines ([] : Chars) = [] from rfl]
    rw [List.getLast?_concat]
    rw [if_pos rfl, List.dropLast_concat, List.append_nil]
  · have hB := splitChar_ne_nil '\n' ys
    rw [List.getLast?_append_of_ne_nil _ hB]
    rw [splitLines, if_neg hys]
    by_cases hlast : (splitChar '\n' ys).getLast? = some []
    · rw [if_pos hlast, if_pos hlast, List.dropLast_append_of_ne_nil _ hB]
    · rw [if_neg hlast, if_neg hlast]

theorem splitLines_eq_splitChar (s : Chars) (hne : s ≠ []) (hlast : s.getLast? ≠ some '\n') :
    splitLines s = splitChar '\n' s := by
  have hcond : ¬(splitChar '\n' s).getLast? = some [] := by
    intro hc
    rcases getLast_splitChar_empty '\n' s hc with h1 | h2
    · exact hne h1
    · exact hlast h2
  rw [splitLines, if_neg hne, if_neg hcond]

theorem splitLines_single (xs : Chars) (hne : xs ≠ []) (h : ∀ c ∈ xs, c ≠ '\n') :
    splitLines xs = [xs] := by
  have hx : ¬([xs] : List Chars).getLast? = some [] := by
    intro hc
    simp at hc
    exact hne hc
  rw [splitLines, if_neg hne, splitChar_no_sep '\n' xs h, if_neg hx]

/-! ### Lemmas about first-occurrence search and prefixes -/

theorem isPrefixOf_exists (l1 : Chars) :
    ∀ l2, l1.isPrefixOf l2 = true ↔ ∃ t, l1 ++ t = l2 := by
  induction l1 with
  | nil =>
    intro l2
    simp [List.isPrefixOf]
  | cons c cs ih =>
    intro l2
    cases l2 with
    | nil => simp [List.isPrefixOf]
    | cons d ds =>
      simp only [List.isPrefixOf, Bool.and_eq_true, beq_iff_eq, ih ds, List.cons_append]
      constructor
      · rintro ⟨rfl, t, rfl⟩
        exact ⟨t, rfl⟩
      · rintro ⟨t, ht⟩
        injection ht with h1 h2
        exact ⟨h1, t, h2⟩

theorem isPrefixOf_self_append (pat t : Chars) : pat.isPrefixOf (pat ++ t) = true :=
  (isPrefixOf_exists pat (pat ++ t)).mpr ⟨t, rfl⟩

theorem isPrefixOf_append_of_le (pat : Chars) :
    ∀ (l1 l2 : Chars), pat.length ≤ l1.length →
      pat.isPrefixOf (l1 ++ l2) = pat.isPrefixOf l1 := by
  induction pat with
  | nil => intro l1 l2 _; simp [List.isPrefixOf]
  | cons p ps ih =>
    intro l1 l2 hlen
    cases l1 with
    | nil => simp at hlen
    | cons x l1x =>
      show (p == x && ps.isPrefixOf (l1x ++ l2)) = (p == x && ps.isPrefixOf l1x)
      rw [ih l1x l2 (by simpa using hlen)]

theorem splitFirst_sound (pat : Chars) :
    ∀ (s a b : Chars), splitFirst pat s = some (a, b) → s = a ++ pat ++ b := by
  intro s
  induction s with
  | nil =>
    intro a b h
    by_cases hp : pat = []
    · subst hp
      simp [splitFirst] at h
      rw [h.1, h.2]
      rfl
    · simp [splitFirst, hp] at h
  | cons c rest ih =>
    intro a b h
    rw [splitFirst] at h
    by_cases hp : pat.isPrefixOf (c :: rest) = true
    · rw [if_pos hp] at h
      obtain ⟨t, ht⟩ := (isPrefixOf_exists pat (c :: rest)).mp hp
      injection h with h2
      cases h2
      rw [← ht, List.nil_append, List.drop_left]
    · rw [if_neg hp] at h
      cases hsf : splitFirst pat rest with
      | none => rw [hsf] at h; cases h
      | some pr =>
        rw [hsf] at h
        injection h with h2
        cases h2
        rw [ih pr.1 pr.2 (by rw [hsf])]
        rfl

theorem splitFirst_first (pat : Chars) :
    ∀ (s a b : Chars), splitFirst pat s = some (a, b) →
      ∀ i < a.length, pat.isPrefixOf (s.drop i) = false := by
  intro s
  induction s with
  | nil =>
    intro a b h i hi
    by_cases hp : pat = []
    · subst hp
      simp [splitFirst] at h
      rw [h.1] at hi
      simp at hi
    · simp [splitFirst, hp] at h
  | cons c rest ih =>
    intro a b h i hi
    rw [splitFirst] at h
    by_cases hp : pat.isPrefixOf (c :: rest) = true
    · rw [if_pos hp] at h
      injection h with h2
      cases h2
      simp at hi
    · rw [if_neg hp] at h
      cases hsf : splitFirst pat rest with
      | none => rw [hsf] at h; cases h
      | some pr =>
        rw [hsf] at h
        injection h with h2
        cases h2
        cases i with
        | zero =>
          simp only [List.drop_zero]
          exact Bool.eq_false_iff.mpr hp
        | succ j =>
          have hj : j < pr.1.length := by simpa using hi
          exact ih pr.1 pr.2 (by rw [hsf]) j hj

theorem containsSub_drop (pat s : Chars) (h : containsSub pat s = true) :
    ∃ i, pat.isPrefixOf (s.drop i) = true := by
  unfold containsSub at h
  cases hsf : splitFirst pat s with
  | none => rw [hsf] at h; cases h
  | some pr =>
    refine ⟨pr.1.length, ?_⟩
    rw [splitFirst_sound pat s pr.1 pr.2 (by rw [hsf]), List.append_assoc, List.drop_left]
    exact isPrefixOf_self_append pat pr.2

/-! ### Lemmas about the registry-section search -/

theorem sectionTailAux_skip (u : Chars) :
    ∀ (acc rest : Chars), (∀ c ∈ u, c ≠ '\n') →
      sectionTailAux acc (u ++ rest) = sectionTailAux (u.reverse ++ acc) rest := by
  induction u with
  | nil =>
    intro acc rest _
    simp
  | cons c u2 ih =>
    intro acc rest hu
    have hc : c ≠ '\n' := hu c (List.mem_cons_self c u2)
    have hbeq : ('\n' == c) = false := by
      rw [beq_eq_false_iff_ne]
      exact fun h => hc h.symm
    have hpre : ("\n##".toList).isPrefixOf (c :: (u2 ++ rest)) = false := by
      show (('\n' == c) && _) = false
      rw [hbeq]
      rfl
    have hcondf : (decide (acc ≠ []) && ("\n##".toList).isPrefixOf (c :: (u2 ++ rest))) = false := by
      rw [hpre, Bool.and_false]
    rw [List.cons_append, sectionTailAux, if_neg (by rw [hcondf]; exact Bool.false_ne_true)]
    rw [ih (c :: acc) rest (fun d hd => hu d (List.mem_cons_of_mem c hd))]
    congr 1
    simp

theorem sectionTailAux_some :
    ∀ (t acc : Chars), acc ≠ [] →
      (∃ i, ("\n##".toList).isPrefixOf (t.drop i) = true) →
      (sectionTailAux acc t).isSome := by
  intro t
  induction t with
  | nil =>
    rintro acc hacc ⟨i, hi⟩
    simp [List.isPrefixOf] at hi
  | cons c rest ih =>
    rintro acc hacc ⟨i, hi⟩
    rw [sectionTailAux]
    by_cases hcond : (decide (acc ≠ []) && ("\n##".toList).isPrefixOf (c :: rest)) = true
    · rw [if_pos hcond]
      rfl
    · rw [if_neg hcond]
      refine ih (c :: acc) (by simp) ?_
      cases i with
      | zero =>
        exfalso
        apply hcond
        rw [List.drop_zero] at hi
        rw [hi, Bool.and_true, decide_eq_true_eq]
        exact hacc
      | succ j =>
        exact ⟨j, by simpa using hi⟩

theorem sectionTailAux_struct :
    ∀ (t acc g : Chars), sectionTailAux acc t = some g →
      ∃ u2 j, g = acc.reverse ++ u2 ∧ u2 = t.take j := by
  intro t
  induction t with
  | nil =>
    intro acc g h
    simp [sectionTailAux] at h
  | cons c rest ih =>
    intro acc g h
    rw [sectionTailAux] at h
    by_cases hcond : (decide (acc ≠ []) && ("\n##".toList).isPrefixOf (c :: rest)) = true
    · rw [if_pos hcond] at h
      injection h with h2
      exact ⟨[], 0, by rw [← h2]; simp, rfl⟩
    · rw [if_neg hcond] at h
      obtain ⟨u2, j, hg, hu2⟩ := ih (c :: acc) g h
      refine ⟨c :: u2, j + 1, ?_, ?_⟩
      · rw [hg]
        simp
      · rw [List.take_succ_cons, hu2]

theorem getActionsSection_skip :
    ∀ (P rest : Chars),
      (∀ i, i < P.length → headingChars.isPrefixOf ((P ++ rest).drop i) = false) →
      getActionsSection (P ++ rest) = getActionsSection rest := by
  intro P
  induction P with
  | nil => intro rest _; rfl
  | cons c P2 ih =>
    intro rest h
    have h0 : headingChars.isPrefixOf (c :: (P2 ++ rest)) = false := by
      have := h 0 (by simp)
      simpa using this
    rw [List.cons_append, getActionsSection, if_neg (by simp [h0])]
    refine ih rest (fun i hi => ?_)
    have := h (i + 1) (by simpa using Nat.succ_lt_succ hi)
    simpa using this

theorem getActionsSection_at (T g : Chars) (hsec : sectionTailAux [] T = some g) :
    getActionsSection (headingChars ++ T) = some g := by
  rw [show headingChars ++ T = '#' :: ("# 可用动作\n".toList ++ T) from rfl]
  rw [getActionsSection]
  have hp : headingChars.isPrefixOf ('#' :: ("# 可用动作\n".toList ++ T)) = true := by
    rw [show '#' :: ("# 可用动作\n".toList ++ T) = headingChars ++ T from rfl]
    exact isPrefixOf_self_append headingChars T
  rw [if_pos hp]
  rw [show ('#' :: ("# 可用动作\n".toList ++ T)).drop headingChars.length = T from by
    rw [show '#' :: ("# 可用动作\n".toList ++ T) = headingChars ++ T from rfl, List.drop_left]]
  rw [hsec]

/-! ### Lemmas about `pyStrip` -/

theorem dropWhile_getLast (p : Char → Bool) :
    ∀ l : Chars, l.dropWhile p ≠ [] → (l.dropWhile p).getLast? = l.getLast? := by
  intro l
  induction l with
  | nil => intro h; simp at h
  | cons c rest ih =>
    intro h
    rw [List.dropWhile_cons] at h ⊢
    by_cases hc : p c = true
    · rw [if_pos hc] at h ⊢
      have hrne : rest ≠ [] := by
        intro hr
        rw [hr] at h
        simp at h
      obtain ⟨x, xs, hx⟩ := List.exists_cons_of_ne_nil hrne
      rw [ih h, hx, List.getLast?_cons_cons]
    · rw [if_neg hc]

theorem pyStrip_eq_self (s : Chars) (hne : s ≠ [])
    (hhd : ∀ c, s.head? = some c → pyIsSpace c = false)
    (hlast : ∀ c, s.getLast? = some c → pyIsSpace c = false) :
    pyStrip s = s := by
  obtain ⟨c, t, rfl⟩ := List.exists_cons_of_ne_nil hne
  unfold pyStrip
  rw [List.dropWhile_cons, if_neg (by simp [hhd c rfl])]
  obtain ⟨d, r, hr⟩ := List.exists_cons_of_ne_nil (show (c :: t).reverse ≠ [] by simp)
  have hd2 : pyIsSpace d = false := by
    apply hlast
    rw [← List.head?_reverse, hr]
    rfl
  rw [hr, List.dropWhile_cons, if_neg (by simp [hd2]), ← hr, List.reverse_reverse]

theorem pyStrip_tail_shape (A u2 : Chars) (hAne : A ≠ [])
    (hAhd : ∀ c, A.head? = some c → pyIsSpace c = false)
    (hAlast : ∀ c, A.getLast? = some c → pyIsSpace c = false)
    (hu2 : u2 = [] ∨ ∃ v2, u2 = '\n' :: v2) :
    ∃ v, pyStrip (A ++ u2) = A ++ v ∧ (v = [] ∨ ∃ v2, v = '\n' :: v2) := by
  obtain ⟨c, t, rfl⟩ := List.exists_cons_of_ne_nil hAne
  unfold pyStrip
  rw [List.cons_append, List.dropWhile_cons, if_neg (by simp [hAhd c rfl]), ← List.cons_append]
  rw [List.reverse_append, List.dropWhile_append]
  by_cases hemp : (u2.reverse.dropWhile pyIsSpace).isEmpty = true
  · rw [if_pos hemp]
    obtain ⟨d, r, hr⟩ := List.exists_cons_of_ne_nil (show (c :: t).reverse ≠ [] by simp)
    have hd2 : pyIsSpace d = false := by
      apply hAlast
      rw [← List.head?_reverse, hr]
      rfl
    rw [hr, List.dropWhile_cons, if_neg (by simp [hd2]), ← hr, List.reverse_reverse]
    exact ⟨[], by simp, Or.inl rfl⟩
  · rw [if_neg hemp]
    have hwne : u2.reverse.dropWhile pyIsSpace ≠ [] := by
      intro hw
      rw [hw] at hemp
      simp at hemp
    have hu2ne : u2 ≠ [] := by
      intro hu
      rw [hu] at hwne
      simp at hwne
    obtain ⟨v2, hv2⟩ : ∃ v2, u2 = '\n' :: v2 := by
      rcases hu2 with h1 | h2
      · exact absurd h1 hu2ne
      · exact h2
    refine ⟨(u2.reverse.dropWhile pyIsSpace).reverse, ?_, ?_⟩
    · rw [List.reverse_append, List.reverse_reverse]
    · right
      have hlastw : (u2.reverse.dropWhile pyIsSpace).getLast? = u2.reverse.getLast? :=
        dropWhile_getLast pyIsSpace u2.reverse hwne
      have hhead : (u2.reverse.dropWhile pyIsSpace).reverse.head? = some '\n' := by
        rw [List.head?_reverse, hlastw, List.getLast?_reverse, hv2]
        rfl
      obtain ⟨x, xs, hx⟩ := List.exists_cons_of_ne_nil
        (show (u2.reverse.dropWhile pyIsSpace).reverse ≠ [] by simpa using hwne)
      rw [hx] at hhead ⊢
      injection hhead with hh
      exact ⟨xs, by rw [hh]⟩

/-! ### Lemmas for the `history` characterisation -/

theorem parseDateHead_head (s : Chars) (d : Chars) (h : parseDateHead s = some d) :
    ['|'].isPrefixOf s = false := by
  unfold parseDateHead at h
  split at h
  · next a b c dd e f g hh rest =>
    rfl
  · cases h

theorem decodeRow_of_date (cur l d : Chars) (h : parseDateHead (pyStrip l) = some d) :
    decodeRow cur l = none := by
  unfold decodeRow
  rw [parseDateHead_head _ _ h]
  rfl

theorem history_step_date (st : Option Chars × List HistEntry) (l d : Chars)
    (h : parseDateHead (pyStrip l) = some d) :
    history_step st l = (some d, st.2) := by
  unfold history_step
  rw [h]

theorem history_step_nodate_none (acc : List HistEntry) (l : Chars)
    (h : parseDateHead (pyStrip l) = none) :
    history_step (none, acc) l = (none, acc) := by
  unfold history_step
  rw [h]

theorem history_step_decode (cur : Chars) (acc : List HistEntry) (l : Chars)
    (h : parseDateHead (pyStrip l) = none) :
    history_step (some cur, acc) l = (some cur, acc ++ (decodeRow cur l).toList) := by
  unfold history_step decodeRow
  rw [h]
  simp only []
  by_cases h1 : (['|'].isPrefixOf (pyStrip l) && !containsSub "---".toList l) = true
  · rw [if_pos h1, if_pos h1]
    split
    · split
      · rfl
      · simp
    · simp
  · rw [if_neg h1, if_neg h1]
    simp

theorem lastDateOf_append_some (ls : List Chars) (l d : Chars)
    (h : parseDateHead (pyStrip l) = some d) :
    lastDateOf (ls ++ [l]) = some d := by
  unfold lastDateOf
  rw [List.filterMap_append]
  have : List.filterMap (fun l => parseDateHead (pyStrip l)) [l] = [d] := by
    simp [List.filterMap, h]
  rw [this]
  exact List.getLast?_concat _

theorem lastDateOf_append_none (ls : List Chars) (l : Chars)
    (h : parseDateHead (pyStrip l) = none) :
    lastDateOf (ls ++ [l]) = lastDateOf ls := by
  unfold lastDateOf
  rw [List.filterMap_append]
  have : List.filterMap (fun l => parseDateHead (pyStrip l)) [l] = [] := by
    simp [List.filterMap, h]
  rw [this, List.append_nil]

theorem specHL_append (ls : List Chars) (l : Chars) :
    specHL (ls ++ [l]) =
      specHL ls ++ ((lastDateOf ls).bind (fun d => decodeRow d l)).toList := by
  unfold specHL
  have hlen : (ls ++ [l]).length = ls.length + 1 := by simp
  rw [hlen, List.range_succ, List.filterMap_append]
  congr 1
  · apply List.filterMap_congr
    intro i hi
    have hi' : i < ls.length := List.mem_range.mp hi
    rw [List.get?_append hi', List.take_append_of_le_length (le_of_lt hi')]
  · have hg : (ls ++ [l]).get? ls.length = some l := List.get?_concat_length ls l
    have ht : (ls ++ [l]).take ls.length = ls := List.take_left ls [l]
    simp only [List.filterMap_cons, List.filterMap_nil, hg, ht, Option.some_bind]
    cases hopt : (lastDateOf ls).bind (fun d => decodeRow d l) with
    | none => rfl
    | some e => rfl

theorem history_fold_spec (ls : List Chars) :
    ls.foldl history_step (none, []) = (lastDateOf ls, specHL ls) := by
  induction ls using List.reverseRecOn with
  | nil => rfl
  | append_singleton ls l ih =>
    rw [List.foldl_append, ih, List.foldl_cons, List.foldl_nil]
    cases hd : parseDateHead (pyStrip l) with
    | some d =>
      rw [history_step_date _ _ _ hd, lastDateOf_append_some ls l d hd, specHL_append]
      have : ∀ o : Option Chars, (o.bind (fun d2 => decodeRow d2 l)).toList = [] := by
        intro o
        cases o with
        | none => rfl
        | some cur => simp [decodeRow_of_date cur l d hd]
      rw [this]
      simp
    | none =>
      rw [specHL_append, lastDateOf_append_none ls l hd]
      cases hcur : lastDateOf ls with
      | none =>
        rw [history_step_nodate_none _ _ hd]
        simp
      | some cur =>
        rw [history_step_decode _ _ _ hd]
        simp

/-! ### Shape lemmas for `record` -/

/-- `record` when no registry entry matches the query. -/
theorem record_none_shape (content today q : Chars) (reps : ℤ) (kg : ℚ) (sets : ℤ)
    (hfind : (get_actions content).find?
      (fun a => containsSub (lowerStr q) (lowerStr a)) = none) :
    record content today q reps kg sets = (content, Except.error RecordErr.actionNotFound) := by
  simp only [record]
  rw [hfind]

/-- `record` when the query resolves but a captured weight cell does not
parse as a float (the uncaught `ValueError` path). -/
theorem record_scanfail_shape (content today q : Chars) (reps : ℤ) (kg : ℚ) (sets : ℤ)
    (m : Chars)
    (hfind : (get_actions content).find?
      (fun a => containsSub (lowerStr q) (lowerStr a)) = some m)
    (hscan : (scanPR m content).mapM parsePyFloat = none) :
    record content today q reps kg sets = (content, Except.error RecordErr.badWeightCell) := by
  simp only [record]
  rw [hfind]
  simp only []
  rw [hscan]

/-- `record` on the success path. -/
theorem record_ok_shape (content today q : Chars) (reps : ℤ) (kg : ℚ) (sets : ℤ)
    (m : Chars) (ws : List ℚ)
    (hfind : (get_actions content).find?
      (fun a => containsSub (lowerStr q) (lowerStr a)) = some m)
    (hscan : (scanPR m content).mapM parsePyFloat = some ws) :
    record content today q reps kg sets =
      (if containsSub ("## ".toList ++ today) content then
          content ++ '\n' :: mkRow m sets reps kg (intMulRat (sets * reps) kg)
        else
          content ++ "\n\n".toList ++ ("## ".toList ++ today) ++ '\n' :: table_header ++
            '\n' :: mkRow m sets reps kg (intMulRat (sets * reps) kg),
        Except.ok ⟨m, intMulRat (sets * reps) kg, decide (listMax0 ws < kg), listMax0 ws⟩) := by
  simp only [record]
  rw [hfind]
  simp only []
  rw [hscan]
  rfl

/-! ### Character classes of the rendered numbers -/

theorem digitChar_isDig (d : ℕ) : isDig (digitChar d) = true := by
  unfold digitChar
  split <;> rfl

theorem renderNat_chars (n : ℕ) : ∀ c ∈ renderNat n, isDig c = true := by
  rw [renderNat_eq_digits]
  by_cases hn : n = 0
  · rw [if_pos hn]
    intro c hc
    rw [List.mem_singleton] at hc
    subst hc
    rfl
  · rw [if_neg hn]
    intro c hc
    rw [List.mem_reverse] at hc
    obtain ⟨d, _, hd⟩ := List.mem_map.mp hc
    rw [← hd]
    exact digitChar_isDig d

theorem renderNat_ne_nil (n : ℕ) : renderNat n ≠ [] := by
  rw [renderNat_eq_digits]
  by_cases hn : n = 0
  · rw [if_pos hn]; simp
  · rw [if_neg hn]
    simp [Nat.digits_ne_nil_iff_ne_zero, hn]

theorem isNumChar_isDig (c : Char) (h : isDig c = true) : isNumChar c = true := by
  unfold isNumChar
  rw [h]
  rfl

theorem renderInt_chars (z : ℤ) : ∀ c ∈ renderInt z, isNumChar c = true := by
  unfold renderInt
  intro c hc
  by_cases hz : z < 0
  · rw [if_pos hz] at hc
    rcases List.mem_cons.mp hc with h | h
    · subst h; rfl
    · exact isNumChar_isDig c (renderNat_chars _ c h)
  · rw [if_neg hz] at hc
    exact isNumChar_isDig c (renderNat_chars _ c hc)

theorem renderInt_ne_nil (z : ℤ) : renderInt z ≠ [] := by
  unfold renderInt
  by_cases hz : z < 0
  · rw [if_pos hz]; simp
  · rw [if_neg hz]; exact renderNat_ne_nil _

theorem renderDec_chars (n d : ℕ) : ∀ c ∈ renderDec n d, isNumChar c = true := by
  intro c hc
  simp only [renderDec] at hc
  by_cases hk : fracLenD d = 0
  · rw [if_pos hk] at hc
    rcases List.mem_append.mp hc with h | h
    · exact isNumChar_isDig c (renderNat_chars _ c h)
    · rcases List.mem_cons.mp h with h2 | h2
      · subst h2; rfl
      · rw [List.mem_singleton] at h2; subst h2; rfl
  · rw [if_neg hk] at hc
    rcases List.mem_append.mp hc with h | h
    · exact isNumChar_isDig c (renderNat_chars _ c h)
    · rcases List.mem_cons.mp h with h2 | h2
      · subst h2; rfl
      · rcases List.mem_append.mp h2 with h3 | h3
        · rw [List.eq_of_mem_replicate h3]; rfl
        · exact isNumChar_isDig c (renderNat_chars _ c h3)

theorem renderDec_ne_nil (n d : ℕ) : renderDec n d ≠ [] := by
  simp only [renderDec]
  by_cases hk : fracLenD d = 0
  · rw [if_pos hk]
    intro h
    exact renderNat_ne_nil _ (List.append_eq_nil.mp h).1
  · rw [if_neg hk]
    intro h
    exact renderNat_ne_nil _ (List.append_eq_nil.mp h).1

theorem renderPyFloat_chars (q : ℚ) : ∀ c ∈ renderPyFloat q, isNumChar c = true := by
  unfold renderPyFloat
  intro c hc
  by_cases hq : q.num < 0
  · rw [if_pos hq] at hc
    rcases List.mem_cons.mp hc with h | h
    · subst h; rfl
    · exact renderDec_chars _ _ c h
  · rw [if_neg hq] at hc
    exact renderDec_chars _ _ c hc

theorem renderPyFloat_ne_nil (q : ℚ) : renderPyFloat q ≠ [] := by
  unfold renderPyFloat
  by_cases hq : q.num < 0
  · rw [if_pos hq]; simp
  · rw [if_neg hq]; exact renderDec_ne_nil _ _

theorem isNumChar_toNat (c : Char) (h : isNumChar c = true) :
    45 ≤ c.toNat ∧ c.toNat ≤ 57 := by
  unfold isNumChar isDig at h
  simp only [Bool.or_eq_true, Bool.and_eq_true, decide_eq_true_eq] at h
  rcases h with (⟨h1, h2⟩ | h3) | h4
  · exact ⟨by omega, h2⟩
  · subst h3; decide
  · subst h4; decide

theorem pyIsSpace_toNat (c : Char) (h : pyIsSpace c = true) : c.toNat ≤ 32 := by
  unfold pyIsSpace at h
  simp only [Bool.or_eq_true, decide_eq_true_eq] at h
  rcases h with ((((h | h) | h) | h) | h) | h <;> subst h <;> decide

theorem isNumChar_not_space (c : Char) (h : isNumChar c = true) : pyIsSpace c = false := by
  cases hs : pyIsSpace c
  · rfl
  · have h1 := pyIsSpace_toNat c hs
    have h2 := (isNumChar_toNat c h).1
    omega

theorem isNumChar_ne_nl (c : Char) (h : isNumChar c = true) : c ≠ '\n' := by
  intro hc
  subst hc
  exact absurd h (by decide)

theorem isNumChar_ne_pipe_char (c : Char) (h : isNumChar c = true) : c ≠ '|' := by
  intro hc
  subst hc
  exact absurd h (by decide)

theorem mem_of_getLast?_eq (l : Chars) (c : Char) (h : l.getLast? = some c) : c ∈ l := by
  rw [← List.head?_reverse] at h
  exact List.mem_reverse.mp (List.mem_of_mem_head? h)

theorem render_strip (r : Chars) (hne : r ≠ []) (hch : ∀ c ∈ r, isNumChar c = true) :
    pyStrip r = r := by
  apply pyStrip_eq_self r hne
  · intro c hc
    exact isNumChar_not_space c (hch c (List.mem_of_mem_head? hc))
  · intro c hc
    exact isNumChar_not_space c (hch c (mem_of_getLast?_eq r c hc))

theorem renderInt_strip (z : ℤ) : pyStrip (renderInt z) = renderInt z :=
  render_strip _ (renderInt_ne_nil z) (renderInt_chars z)

theorem renderPyFloat_strip (q : ℚ) : pyStrip (renderPyFloat q) = renderPyFloat q :=
  render_strip _ (renderPyFloat_ne_nil q) (renderPyFloat_chars q)

/-! ### `pyStrip` on space-padded cells -/

theorem pyStrip_cons_space (s : Chars) : pyStrip (' ' :: s) = pyStrip s := by
  unfold pyStrip
  rw [List.dropWhile_cons, if_pos (show pyIsSpace ' ' = true from rfl)]

theorem pyStrip_append_space (s : Chars) : pyStrip (s ++ [' ']) = pyStrip s := by
  unfold pyStrip
  rw [List.dropWhile_append]
  by_cases he : (s.dropWhile pyIsSpace).isEmpty = true
  · rw [if_pos he]
    have hs : s.dropWhile pyIsSpace = [] := by
      rwa [List.isEmpty_iff] at he
    rw [hs]
    rfl
  · rw [if_neg he, List.reverse_append,
      show ([' '] : Chars).reverse = [' '] from rfl, List.singleton_append,
      List.dropWhile_cons, if_pos (show pyIsSpace ' ' = true from rfl)]

theorem pyStrip_pad (s : Chars) : pyStrip (' ' :: s ++ [' ']) = pyStrip s := by
  rw [show (' ' :: s ++ [' '] : Chars) = ' ' :: (s ++ [' ']) from rfl,
    pyStrip_cons_space, pyStrip_append_space]

/-! ### The shape of the written row -/

theorem mkRow_eq (A : Chars) (sets reps : ℤ) (kg vol : ℚ) :
    mkRow A sets reps kg vol =
      '|' :: ((' ' :: A ++ [' ']) ++ '|' :: ((' ' :: renderInt sets ++ [' ']) ++ '|' ::
        ((' ' :: renderInt reps ++ [' ']) ++ '|' :: ((' ' :: renderPyFloat kg ++ [' ']) ++ '|' ::
          ((' ' :: renderPyFloat vol ++ [' ']) ++ ['|']))))) := by
  simp [mkRow]

theorem mkRow_concat (A : Chars) (sets reps : ℤ) (kg vol : ℚ) :
    mkRow A sets reps kg vol =
      ("| ".toList ++ A ++ " | ".toList ++ renderInt sets ++ " | ".toList ++ renderInt reps ++
        " | ".toList ++ renderPyFloat kg ++ " | ".toList ++ renderPyFloat vol ++ [' ']) ++
        ['|'] := by
  simp [mkRow]

theorem cell_no_pipe (r : Chars) (hr : ∀ c ∈ r, c ≠ '|') :
    ∀ c ∈ (' ' :: r ++ [' '] : Chars), c ≠ '|' := by
  intro c hc
  rcases List.mem_cons.mp hc with h | h
  · subst h; decide
  · rcases List.mem_append.mp h with h2 | h2
    · exact hr c h2
    · rw [List.mem_singleton] at h2; subst h2; decide

theorem cell_no_nl (r : Chars) (hr : ∀ c ∈ r, c ≠ '\n') :
    ∀ c ∈ (' ' :: r ++ [' '] : Chars), c ≠ '\n' := by
  intro c hc
  rcases List.mem_cons.mp hc with h | h
  · subst h; decide
  · rcases List.mem_append.mp h with h2 | h2
    · exact hr c h2
    · rw [List.mem_singleton] at h2; subst h2; decide

theorem mkRow_parts (A : Chars) (sets reps : ℤ) (kg vol : ℚ)
    (hA : ∀ c ∈ A, c ≠ '|') :
    splitChar '|' (mkRow A sets reps kg vol) =
      [[], ' ' :: A ++ [' '], ' ' :: renderInt sets ++ [' '], ' ' :: renderInt reps ++ [' '],
        ' ' :: renderPyFloat kg ++ [' '], ' ' :: renderPyFloat vol ++ [' '], []] := by
  rw [mkRow_eq, splitChar_cons_sep, splitChar_append_sep, splitChar_append_sep,
    splitChar_append_sep, splitChar_append_sep, splitChar_append_sep]
  rw [splitChar_no_sep '|' _ (cell_no_pipe A hA),
    splitChar_no_sep '|' _
      (cell_no_pipe _ (fun c hc => isNumChar_ne_pipe_char c (renderInt_chars sets c hc))),
    splitChar_no_sep '|' _
      (cell_no_pipe _ (fun c hc => isNumChar_ne_pipe_char c (renderInt_chars reps c hc))),
    splitChar_no_sep '|' _
      (cell_no_pipe _ (fun c hc => isNumChar_ne_pipe_char c (renderPyFloat_chars kg c hc))),
    splitChar_no_sep '|' _
      (cell_no_pipe _ (fun c hc => isNumChar_ne_pipe_char c (renderPyFloat_chars vol c hc)))]
  rfl

theorem mkRow_cells (A : Chars) (sets reps : ℤ) (kg vol : ℚ)
    (hA : ∀ c ∈ A, c ≠ '|') :
    (splitChar '|' (mkRow A sets reps kg vol)).map pyStrip =
      [[], pyStrip A, renderInt sets, renderInt reps, renderPyFloat kg, renderPyFloat vol,
        []] := by
  rw [mkRow_parts A sets reps kg vol hA]
  simp only [List.map_cons, List.map_nil]
  rw [pyStrip_pad, pyStrip_pad, pyStrip_pad, pyStrip_pad, pyStrip_pad,
    renderInt_strip, renderInt_strip, renderPyFloat_strip, renderPyFloat_strip]
  rfl

theorem mkRow_strip (A : Chars) (sets reps : ℤ) (kg vol : ℚ) :
    pyStrip (mkRow A sets reps kg vol) = mkRow A sets reps kg vol := by
  apply pyStrip_eq_self
  · simp [mkRow]
  · intro c hc
    rw [mkRow_eq, List.head?_cons] at hc
    injection hc with h
    subst h
    rfl
  · intro c hc
    rw [mkRow_concat, List.getLast?_concat] at hc
    injection hc with h
    subst h
    rfl

theorem mkRow_pipe_head (A : Chars) (sets reps : ℤ) (kg vol : ℚ) :
    (['|'] : Chars).isPrefixOf (mkRow A sets reps kg vol) = true := by
  rw [mkRow_eq]
  rfl

theorem parseDateHead_pipe (rest : Chars) : parseDateHead ('|' :: rest) = none := rfl

theorem mkRow_nodate (A : Chars) (sets reps : ℤ) (kg vol : ℚ) :
    parseDateHead (pyStrip (mkRow A sets reps kg vol)) = none := by
  rw [mkRow_strip, mkRow_eq]
  exact parseDateHead_pipe _

theorem mkRow_no_nl (A : Chars) (sets reps : ℤ) (kg vol : ℚ)
    (hA : ∀ c ∈ A, c ≠ '\n') :
    ∀ c ∈ mkRow A sets reps kg vol, c ≠ '\n' := by
  have hrs : ∀ c ∈ renderInt sets, c ≠ '\n' :=
    fun c hc => isNumChar_ne_nl c (renderInt_chars sets c hc)
  have hrr : ∀ c ∈ renderInt reps, c ≠ '\n' :=
    fun c hc => isNumChar_ne_nl c (renderInt_chars reps c hc)
  have hrk : ∀ c ∈ renderPyFloat kg, c ≠ '\n' :=
    fun c hc => isNumChar_ne_nl c (renderPyFloat_chars kg c hc)
  have hrv : ∀ c ∈ renderPyFloat vol, c ≠ '\n' :=
    fun c hc => isNumChar_ne_nl c (renderPyFloat_chars vol c hc)
  intro c hc
  rw [mkRow_eq] at hc
  rcases List.mem_cons.mp hc with h | h
  · subst h; decide
  rcases List.mem_append.mp h with h | h
  · exact cell_no_nl A hA c h
  rcases List.mem_cons.mp h with h | h
  · subst h; decide
  rcases List.mem_append.mp h with h | h
  · exact cell_no_nl _ hrs c h
  rcases List.mem_cons.mp h with h | h
  · subst h; decide
  rcases List.mem_append.mp h with h | h
  · exact cell_no_nl _ hrr c h
  rcases List.mem_cons.mp h with h | h
  · subst h; decide
  rcases List.mem_append.mp h with h | h
  · exact cell_no_nl _ hrk c h
  rcases List.mem_cons.mp h with h | h
  · subst h; decide
  rcases List.mem_append.mp h with h | h
  · exact cell_no_nl _ hrv c h
  rw [List.mem_singleton] at h
  subst h; decide

theorem decodeRow_mkRow (d A : Chars) (sets reps : ℤ) (kg vol : ℚ)
    (hA : ∀ c ∈ A, c ≠ '|')
    (hdash : containsSub "---".toList (mkRow A sets reps kg vol) = false)
    (hstrip : pyStrip A ≠ [])
    (hact : containsSub "Action".toList (pyStrip A) = false) :
    decodeRow d (mkRow A sets reps kg vol) =
      some ⟨d, pyStrip A, renderInt sets, renderInt reps, renderPyFloat kg,
        renderPyFloat vol⟩ := by
  unfold decodeRow
  rw [mkRow_strip]
  have hcond : ((['|'] : Chars).isPrefixOf (mkRow A sets reps kg vol) &&
      !containsSub "---".toList (mkRow A sets reps kg vol)) = true := by
    rw [mkRow_pipe_head, hdash]
    rfl
  rw [if_pos hcond, mkRow_cells A sets reps kg vol hA]
  simp only []
  have hcond2 : (decide (pyStrip A ≠ []) && !containsSub "Action".toList (pyStrip A)) =
      true := by
    rw [hact]
    simp [hstrip]
  rw [if_pos hcond2]

/-! ### Folding `history` over an appended tail -/

theorem history_step_empty (o : Option Chars) (acc : List HistEntry) :
    history_step (o, acc) [] = (o, acc) := by
  cases o <;> rfl

theorem history_step_theader_row (cur : Chars) (acc : List HistEntry) :
    history_step (some cur, acc) table_header_row = (some cur, acc) := rfl

theorem history_step_theader_sep (cur : Chars) (acc : List HistEntry) :
    history_step (some cur, acc) table_header_sep = (some cur, acc) := rfl

theorem fold_splitChar_splitLines (s : Chars) :
    (splitChar '\n' s).foldl history_step (none, []) =
      (splitLines s).foldl history_step (none, []) := by
  by_cases hs : s = []
  · subst hs
    rfl
  · rw [splitLines, if_neg hs]
    by_cases hlast : (splitChar '\n' s).getLast? = some []
    · rw [if_pos hlast]
      have hne : splitChar '\n' s ≠ [] := splitChar_ne_nil '\n' s
      have hd : (splitChar '\n' s).dropLast ++ [[]] = splitChar '\n' s := by
        have h1 : (splitChar '\n' s).getLast hne = [] := by
          have h2 := List.getLast?_eq_getLast (splitChar '\n' s) hne
          rw [h2, Option.some_inj] at hlast
          exact hlast
        rw [← h1]
        exact List.dropLast_append_getLast hne
      conv_lhs => rw [← hd]
      rw [List.foldl_append, List.foldl_cons, List.foldl_nil]
      exact history_step_empty _ _
    · rw [if_neg hlast]

theorem history_append_row (content row : Chars) (d0 : Chars)
    (hd0 : historyDate content = some d0)
    (hrowne : row ≠ []) (hrownl : ∀ c ∈ row, c ≠ '\n')
    (hprow : parseDateHead (pyStrip row) = none) :
    history (content ++ '\n' :: row) =
      history content ++ (decodeRow d0 row).toList := by
  unfold history
  rw [splitLines_append, splitLines_single _ hrowne hrownl, List.foldl_append,
    fold_splitChar_splitLines, List.foldl_cons, List.foldl_nil,
    show (splitLines content).foldl history_step (none, []) =
      (historyDate content, history content) from rfl,
    hd0, history_step_decode d0 (history content) row hprow]

theorem history_append_section (content dh row : Chars) (d0 : Chars)
    (hd0 : parseDateHead (pyStrip dh) = some d0)
    (hdhnl : ∀ c ∈ dh, c ≠ '\n')
    (hrowne : row ≠ []) (hrownl : ∀ c ∈ row, c ≠ '\n')
    (hprow : parseDateHead (pyStrip row) = none) :
    history (content ++ "\n\n".toList ++ dh ++ '\n' :: table_header ++ '\n' :: row) =
      history content ++ (decodeRow d0 row).toList := by
  have hassoc : content ++ "\n\n".toList ++ dh ++ '\n' :: table_header ++ '\n' :: row =
      content ++ '\n' :: (([] : Chars) ++ '\n' :: (dh ++ '\n' :: (table_header_row ++
        '\n' :: (table_header_sep ++ '\n' :: row)))) := by
    rw [show table_header = table_header_row ++ '\n' :: table_header_sep from rfl]
    simp
  rw [hassoc]
  unfold history
  rw [splitLines_append, splitLines_append, splitLines_append, splitLines_append,
    splitLines_append, splitLines_single _ hrowne hrownl,
    splitChar_no_sep '\n' dh hdhnl,
    splitChar_no_sep '\n' table_header_row (by decide),
    splitChar_no_sep '\n' table_header_sep (by decide),
    show splitChar '\n' ([] : Chars) = [[]] from rfl]
  rw [List.foldl_append, fold_splitChar_splitLines,
    show (splitLines content).foldl history_step (none, []) =
      (historyDate content, history content) from rfl]
  simp only [List.singleton_append, List.cons_append, List.nil_append]
  rw [List.foldl_cons, history_step_empty]
  rw [List.foldl_cons, history_step_date _ dh d0 hd0]
  rw [List.foldl_cons, history_step_theader_row]
  rw [List.foldl_cons, history_step_theader_sep]
  rw [List.foldl_cons, List.foldl_nil, history_step_decode d0 _ row hprow]

/-! ### Claim theorems -/

/-- Claim C9: `initialize_storage` is idempotent and never overwrites an
existing document; when the file is absent it creates the fixed template,
whose registry section is seeded with the three default exercises. -/
theorem C9_initialize_storage :
    (∀ file : Option Chars,
        initialize_storage (initialize_storage file) = initialize_storage file) ∧
    (∀ c : Chars, initialize_storage (some c) = some c) ∧
    initialize_storage none = some template ∧
    get_actions template =
      ["深蹲 (Squat)".toList, "卧推 (Bench Press)".toList, "硬拉 (Deadlift)".toList] := by
  refine ⟨fun file => ?_, fun c => rfl, rfl, by decide⟩
  cases file <;> rfl

/-- Claim C6: adding a name that exactly (case-sensitively) matches an
existing registry entry fails with the duplicate error and leaves the
document byte-for-byte unchanged. -/
theorem C6_duplicate_add (content name : Chars) (h : name ∈ get_actions content) :
    action_add content name = (content, Except.error AddErr.duplicate) := by
  unfold action_add
  rw [if_pos h]

theorem C6_witness :
    ("深蹲 (Squat)".toList ∈ get_actions template) ∧
      action_add template ("深蹲 (Squat)".toList) =
        (template, Except.error AddErr.duplicate) :=
  ⟨by decide, C6_duplicate_add template ("深蹲 (Squat)".toList) (by decide)⟩

/-- Claim C10: when no registry entry case-insensitively contains the query
as a substring, `record` fails with `actionNotFound` and the document is
byte-for-byte unchanged (the failure happens before any write). -/
theorem C10_not_found_unchanged (content today q : Chars) (reps : ℤ) (kg : ℚ) (sets : ℤ)
    (h : ∀ a ∈ get_actions content, containsSub (lowerStr q) (lowerStr a) = false) :
    record content today q reps kg sets = (content, Except.error RecordErr.actionNotFound) := by
  have hnone : (get_actions content).find?
      (fun a => containsSub (lowerStr q) (lowerStr a)) = none := by
    rw [List.find?_eq_none]
    intro a ha
    simp [h a ha]
  exact record_none_shape content today q reps kg sets hnone

/-- Claim C5: `record` resolves the query to the first registry entry in
declaration order containing it as a case-insensitive substring, and fails
with `actionNotFound` exactly when no registry entry contains it. -/
theorem C5_resolution (content today q : Chars) (reps : ℤ) (kg : ℚ) (sets : ℤ) :
    ((record content today q reps kg sets).2 = Except.error RecordErr.actionNotFound ↔
      ∀ a ∈ get_actions content, containsSub (lowerStr q) (lowerStr a) = false) ∧
    ∀ r : RecordResult, (record content today q reps kg sets).2 = Except.ok r →
      ∃ l1 l2, get_actions content = l1 ++ r.matchedAction :: l2 ∧
        containsSub (lowerStr q) (lowerStr r.matchedAction) = true ∧
        ∀ a ∈ l1, containsSub (lowerStr q) (lowerStr a) = false := by
  cases hfind : (get_actions content).find?
      (fun a => containsSub (lowerStr q) (lowerStr a)) with
  | none =>
    rw [record_none_shape content today q reps kg sets hfind]
    constructor
    · constructor
      · intro _ a ha
        have := List.find?_eq_none.mp hfind a ha
        simpa using this
      · intro _; rfl
    · intro r hr
      exact absurd hr (by simp)
  | some m =>
    have hmem := List.mem_of_find?_eq_some hfind
    have hm := List.find?_some hfind
    cases hscan : (scanPR m content).mapM parsePyFloat with
    | none =>
      rw [record_scanfail_shape content today q reps kg sets m hfind hscan]
      constructor
      · constructor
        · intro hr; exact absurd hr (by simp)
        · intro hall
          rw [hall m hmem] at hm
          cases hm
      · intro r hr
        exact absurd hr (by simp)
    | some ws =>
      rw [record_ok_shape content today q reps kg sets m ws hfind hscan]
      constructor
      · constructor
        · intro hr; exact absurd hr (by simp)
        · intro hall
          rw [hall m hmem] at hm
          cases hm
      · intro r hr
        have hr2 : RecordResult.mk m (intMulRat (sets * reps) kg)
            (decide (listMax0 ws < kg)) (listMax0 ws) = r := by
          simpa using hr
        obtain ⟨l1, l2, hsplit, hp, hprev⟩ := find?_split _ _ _ hfind
        refine ⟨l1, l2, ?_, ?_, hprev⟩
        · rw [← hr2]; exact hsplit
        · rw [← hr2]; exact hp

set_option maxRecDepth 100000 in
theorem C5_witness :
    ∃ l1 l2, get_actions template = l1 ++ ("深蹲 (Squat)".toList) :: l2 ∧
      containsSub (lowerStr "Squat".toList) (lowerStr "深蹲 (Squat)".toList) = true ∧
      ∀ a ∈ l1, containsSub (lowerStr "Squat".toList) (lowerStr a) = false := by
  have hfind : (get_actions template).find?
      (fun a => containsSub (lowerStr "Squat".toList) (lowerStr a)) =
        some ("深蹲 (Squat)".toList) := by decide
  have hscanlist : scanPR ("深蹲 (Squat)".toList) template = [] := by decide
  have hscan : (scanPR ("深蹲 (Squat)".toList) template).mapM parsePyFloat = some [] := by
    rw [hscanlist]; rfl
  have hrec := record_ok_shape template ("2025-01-01".toList) ("Squat".toList) 5 100 3
    ("深蹲 (Squat)".toList) [] hfind hscan
  have h2 : (record template ("2025-01-01".toList) ("Squat".toList) 5 100 3).2 =
      Except.ok ⟨"深蹲 (Squat)".toList, intMulRat (3 * 5) 100,
        decide (listMax0 [] < 100), listMax0 []⟩ := by
    rw [hrec]
  exact (C5_resolution template ("2025-01-01".toList) ("Squat".toList) 5 100 3).2 _ h2

/-- Prefix tests below the first heading occurrence do not depend on what
follows the heading. -/
theorem prefix_drop_indep (H P B1 B2 : Chars) (i : ℕ) (hi : i < P.length) :
    H.isPrefixOf (((P ++ H) ++ B1).drop i) = H.isPrefixOf (((P ++ H) ++ B2).drop i) := by
  have hle : i ≤ (P ++ H).length := by
    rw [List.length_append]
    omega
  rw [List.drop_append_of_le_length hle, List.drop_append_of_le_length hle]
  have hlen : H.length ≤ ((P ++ H).drop i).length := by
    rw [List.length_drop, List.length_append]
    omega
  rw [isPrefixOf_append_of_le H _ B1 hlen, isPrefixOf_append_of_le H _ B2 hlen]

/-- Claim C3 (amended): for a name `X` that is non-empty, single-line,
backslash-free and without trailing whitespace, not already registered, if
the registry heading has a first occurrence in the document and some later
line starts with `##` after it (so the section regex can close), then
`addAction X` succeeds, inserts the bullet line immediately after the
heading, and a subsequent `listActions` returns `X` first. -/
theorem C3_add_first (content P B X : Chars)
    (hsplit : splitFirst headingChars content = some (P, B))
    (hterm : containsSub ("\n##".toList) B = true)
    (hXnl : ∀ c ∈ X, c ≠ '\n')
    (hXne : X ≠ [])
    (hXtrail : ∀ c, X.getLast? = some c → pyIsSpace c = false)
    (hXbs : ∀ c ∈ X, c ≠ '\\')
    (hXnotin : X ∉ get_actions content) :
    (action_add content X).2 = Except.ok () ∧
      (action_add content X).1 = P ++ headingChars ++ ("- ".toList ++ X ++ ['\n']) ++ B ∧
      (get_actions (action_add content X).1).head? = some X := by
  have hadd : action_add content X =
      (P ++ headingChars ++ ("- ".toList ++ X ++ ['\n']) ++ B, Except.ok ()) := by
    unfold action_add
    rw [if_neg hXnotin, hsplit]
  refine ⟨by rw [hadd], by rw [hadd], ?_⟩
  rw [hadd]
  have hcontent : content = P ++ headingChars ++ B :=
    splitFirst_sound headingChars content P B hsplit
  have hfirst := splitFirst_first headingChars content P B hsplit
  have hUnl : ∀ c ∈ ("- ".toList ++ X : Chars), c ≠ '\n' := by
    intro c hc
    rcases List.mem_append.mp hc with h | h
    · have h3 : ∀ c ∈ ("- ".toList : Chars), c ≠ '\n' := by decide
      exact h3 c h
    · exact hXnl c h
  have hskipH : ∀ i, i < P.length →
      headingChars.isPrefixOf
        ((P ++ (headingChars ++ (("- ".toList ++ X) ++ '\n' :: B))).drop i) = false := by
    intro i hi
    have e1 : P ++ (headingChars ++ (("- ".toList ++ X) ++ '\n' :: B)) =
        (P ++ headingChars) ++ (("- ".toList ++ X) ++ '\n' :: B) := by
      simp
    rw [e1, prefix_drop_indep headingChars P _ B i hi]
    have e2 : (P ++ headingChars) ++ B = content := by
      rw [hcontent]
    rw [e2]
    exact hfirst i hi
  have hskip2 : sectionTailAux [] (("- ".toList ++ X) ++ '\n' :: B) =
      sectionTailAux (("- ".toList ++ X).reverse) ('\n' :: B) := by
    have := sectionTailAux_skip ("- ".toList ++ X) [] ('\n' :: B) hUnl
    simpa using this
  have hsome : (sectionTailAux (("- ".toList ++ X).reverse) ('\n' :: B)).isSome := by
    apply sectionTailAux_some
    · simp
    · obtain ⟨i, hi⟩ := containsSub_drop _ _ hterm
      exact ⟨i + 1, by simpa using hi⟩
  obtain ⟨g, hg⟩ := Option.isSome_iff_exists.mp hsome
  obtain ⟨u2, j, hgu, hu2⟩ := sectionTailAux_struct ('\n' :: B) _ g hg
  have hgu2 : g = ("- ".toList ++ X) ++ u2 := by
    rw [hgu]
    simp
  have hu2shape : u2 = [] ∨ ∃ v2, u2 = '\n' :: v2 := by
    cases j with
    | zero =>
      left
      rw [hu2]
      rfl
    | succ j2 =>
      right
      exact ⟨B.take j2, by rw [hu2]; rfl⟩
  have hAhd : ∀ c, (("- ".toList ++ X : Chars)).head? = some c → pyIsSpace c = false := by
    intro c hc
    rw [show ("- ".toList ++ X : Chars) = '-' :: (' ' :: X) from rfl] at hc
    rw [List.head?_cons] at hc
    injection hc with h
    rw [← h]
    rfl
  have hAlast : ∀ c, (("- ".toList ++ X : Chars)).getLast? = some c → pyIsSpace c = false := by
    intro c hc
    rw [List.getLast?_append_of_ne_nil _ hXne] at hc
    exact hXtrail c hc
  obtain ⟨v, hv, hvshape⟩ :=
    pyStrip_tail_shape ("- ".toList ++ X) u2 (by simp) hAhd hAlast hu2shape
  have hsec : getActionsSection
      (P ++ headingChars ++ ("- ".toList ++ X ++ ['\n']) ++ B) = some g := by
    rw [show P ++ headingChars ++ ("- ".toList ++ X ++ ['\n']) ++ B =
        P ++ (headingChars ++ (("- ".toList ++ X) ++ '\n' :: B)) from by simp]
    rw [getActionsSection_skip P _ hskipH]
    refine getActionsSection_at _ g ?_
    rw [hskip2]
    exact hg
  simp only [get_actions, hsec]
  rw [hgu2, hv]
  have hsplitc : ∃ tail, splitChar '\n' (("- ".toList ++ X) ++ v) =
      ("- ".toList ++ X) :: tail := by
    rcases hvshape with h1 | ⟨v2, h2⟩
    · subst h1
      rw [List.append_nil, splitChar_no_sep '\n' _ hUnl]
      exact ⟨[], rfl⟩
    · subst h2
      rw [splitChar_append_sep, splitChar_no_sep '\n' _ hUnl]
      exact ⟨splitChar '\n' v2, rfl⟩
  obtain ⟨tail, htail⟩ := hsplitc
  rw [htail]
  have hstripA : pyStrip ("- ".toList ++ X) = "- ".toList ++ X :=
    pyStrip_eq_self _ (by simp) hAhd hAlast
  have hpx : ("- ".toList).isPrefixOf (pyStrip ("- ".toList ++ X)) = true := by
    rw [hstripA]
    exact isPrefixOf_self_append _ _
  rw [List.filter_cons, if_pos hpx]
  rw [List.map_cons, List.head?_cons]
  rw [hstripA]
  rfl

/-- Claim C3 counterexample: in a document consisting of just the registry
heading, `addAction "X"` succeeds and inserts the bullet line right after
the heading, but a subsequent `listActions` is empty (no later heading
closes the section regex), so `X` is not its first element. -/
theorem C3_counterexample :
    ("X".toList ∉ get_actions ("## 可用动作\n".toList)) ∧
      (action_add ("## 可用动作\n".toList) ("X".toList)).2 = Except.ok () ∧
      (action_add ("## 可用动作\n".toList) ("X".toList)).1 =
        ("## 可用动作\n- X\n".toList) ∧
      get_actions ((action_add ("## 可用动作\n".toList) ("X".toList)).1) = [] := by
  exact ⟨by decide, by decide, by decide, by decide⟩

theorem C3_witness :
    (splitFirst headingChars template = some ("# 我的训练日志\n\n".toList,
        "- 深蹲 (Squat)\n- 卧推 (Bench Press)\n- 硬拉 (Deadlift)\n\n## 训练目标\n- 深蹲: 120 kg\n- 卧推: 100 kg\n\n".toList)) ∧
      ("New Move".toList ∉ get_actions template) ∧
      (action_add template ("New Move".toList)).2 = Except.ok () ∧
      (get_actions (action_add template ("New Move".toList)).1).head? =
        some ("New Move".toList) := by
  refine ⟨by decide, by decide, ?_, ?_⟩
  · exact (C3_add_first template ("# 我的训练日志\n\n".toList)
      ("- 深蹲 (Squat)\n- 卧推 (Bench Press)\n- 硬拉 (Deadlift)\n\n## 训练目标\n- 深蹲: 120 kg\n- 卧推: 100 kg\n\n".toList)
      ("New Move".toList) (by decide) (by decide) (by decide) (by decide)
      (by decide) (by decide) (by decide)).1
  · exact (C3_add_first template ("# 我的训练日志\n\n".toList)
      ("- 深蹲 (Squat)\n- 卧推 (Bench Press)\n- 硬拉 (Deadlift)\n\n## 训练目标\n- 深蹲: 120 kg\n- 卧推: 100 kg\n\n".toList)
      ("New Move".toList) (by decide) (by decide) (by decide) (by decide)
      (by decide) (by decide) (by decide)).2.2

/-- Claim C4 (amended): `history` decodes a line into a record exactly when
it appears after some date-heading line, its stripped form starts with the
column delimiter, the raw line does not contain `---` anywhere (not merely
"is not the separator row"), it splits into exactly 7 parts, and its action
cell is non-empty and does not contain the substring `Action` (not merely
"is not the literal header label"); all other lines are silently skipped,
and decoded records appear in file order tagged with the most recent
preceding date heading. -/
theorem C4_history_decoding (content : Chars) : history content = specHistory content := by
  unfold history specHistory
  rw [history_fold_spec]

/-- Claim C4 counterexample: a row whose action cell contains `---` is not
the separator row, starts with the delimiter, has 7 cells and a non-header
action cell, so the claim as stated decodes it; the code skips it. -/
theorem C4_counterexample :
    history ("## 2025-01-01\n| a---b | 1 | 1 | 2.0 | 4.0 |".toList) = [] ∧
      specHistoryOrig ("## 2025-01-01\n| a---b | 1 | 1 | 2.0 | 4.0 |".toList) =
        [⟨"2025-01-01".toList, "a---b".toList, "1".toList, "1".toList,
          "2.0".toList, "4.0".toList⟩] := by
  exact ⟨by decide, by decide⟩

/-- Claim C7 (amended): a successful `record` appends exactly one new table
row as the last line of the document, preceded by a single newline character
(so a blank line appears before it only when the document already ended
with a newline, which documents ending in a table row do not); when today's
heading is absent, a blank line, the date heading, the fixed table header
with its separator row, and the new row become the last five lines. -/
theorem C7_append_layout (content today q : Chars) (reps : ℤ) (kg : ℚ) (sets : ℤ)
    (r : RecordResult)
    (hok : (record content today q reps kg sets).2 = Except.ok r)
    (hne : content ≠ []) (hlastc : content.getLast? ≠ some '\n')
    (hrownl : ∀ c ∈ mkRow r.matchedAction sets reps kg r.volume, c ≠ '\n')
    (htoday : ∀ c ∈ today, c ≠ '\n') :
    splitLines (record content today q reps kg sets).1 =
      splitLines content ++
        (if containsSub ("## ".toList ++ today) content then
          [mkRow r.matchedAction sets reps kg r.volume]
        else
          [[], "## ".toList ++ today, table_header_row, table_header_sep,
            mkRow r.matchedAction sets reps kg r.volume]) := by
  cases hfind : (get_actions content).find?
      (fun a => containsSub (lowerStr q) (lowerStr a)) with
  | none =>
    rw [record_none_shape content today q reps kg sets hfind] at hok
    exact absurd hok (by simp)
  | some m =>
    cases hscan : (scanPR m content).mapM parsePyFloat with
    | none =>
      rw [record_scanfail_shape content today q reps kg sets m hfind hscan] at hok
      exact absurd hok (by simp)
    | some ws =>
      have hshape := record_ok_shape content today q reps kg sets m ws hfind hscan
      have hr : RecordResult.mk m (intMulRat (sets * reps) kg)
          (decide (listMax0 ws < kg)) (listMax0 ws) = r := by
        rw [hshape] at hok
        simpa using hok
      subst hr
      have hrow_ne : mkRow m sets reps kg (intMulRat (sets * reps) kg) ≠ [] := by
        simp [mkRow]
      have hrownl2 : ∀ c ∈ mkRow m sets reps kg (intMulRat (sets * reps) kg), c ≠ '\n' :=
        hrownl
      have h1 : (record content today q reps kg sets).1 =
          (if containsSub ("## ".toList ++ today) content then
            content ++ '\n' :: mkRow m sets reps kg (intMulRat (sets * reps) kg)
          else content ++ "\n\n".toList ++ ("## ".toList ++ today) ++ '\n' :: table_header ++
              '\n' :: mkRow m sets reps kg (intMulRat (sets * reps) kg)) := by
        rw [hshape]
      rw [h1]
      by_cases hdh : containsSub ("## ".toList ++ today) content = true
      · rw [if_pos hdh, if_pos hdh]
        rw [splitLines_append, splitLines_single _ hrow_ne hrownl2,
          ← splitLines_eq_splitChar content hne hlastc]
      · rw [if_neg hdh, if_neg hdh]
        have hhd : ∀ c ∈ ("## ".toList ++ today : Chars), c ≠ '\n' := by
          intro c hc
          rcases List.mem_append.mp hc with h | h
          · have h3 : ∀ c ∈ ("## ".toList : Chars), c ≠ '\n' := by decide
            exact h3 c h
          · exact htoday c h
        have hassoc : content ++ "\n\n".toList ++ ("## ".toList ++ today) ++
            '\n' :: table_header ++ '\n' :: mkRow m sets reps kg (intMulRat (sets * reps) kg) =
            content ++ '\n' :: (([] : Chars) ++ '\n' :: (("## ".toList ++ today) ++
              '\n' :: (table_header_row ++ '\n' :: (table_header_sep ++
                '\n' :: mkRow m sets reps kg (intMulRat (sets * reps) kg))))) := by
          rw [show table_header = table_header_row ++ '\n' :: table_header_sep from rfl]
          simp
        rw [hassoc, splitLines_append, splitLines_append, splitLines_append,
          splitLines_append, splitLines_append]
        rw [splitLines_single _ hrow_ne hrownl2,
          ← splitLines_eq_splitChar content hne hlastc,
          splitChar_no_sep '\n' ("## ".toList ++ today) hhd,
          splitChar_no_sep '\n' table_header_row (by decide),
          splitChar_no_sep '\n' table_header_sep (by decide)]
        simp [splitChar]

set_option maxRecDepth 200000 in
/-- Claim C7 counterexample: recording the same action a second time on the
same day succeeds and appends the row directly after the previous row, with
no blank line between them (the document does not end with a newline after
the first record, so the appended `\n` produces no blank line). -/
theorem C7_counterexample :
    (record cexDoc1 ("2025-01-01".toList) ("S".toList) 1 (mkRat 3 1) 1).2 =
        Except.ok ⟨"S".toList, mkRat 3 1, true, mkRat 2 1⟩ ∧
      splitLines (record cexDoc1 ("2025-01-01".toList) ("S".toList) 1 (mkRat 3 1) 1).1 =
        splitLines cexDoc1 ++ ["| S | 1 | 1 | 3.0 | 3.0 |".toList] ∧
      splitLines (record cexDoc1 ("2025-01-01".toList) ("S".toList) 1 (mkRat 3 1) 1).1 ≠
        splitLines cexDoc1 ++ [[], "| S | 1 | 1 | 3.0 | 3.0 |".toList] := by
  refine ⟨by decide, by decide, by decide⟩

set_option maxRecDepth 200000 in
theorem C7_witness :
    ((record cexDoc1 ("2025-01-01".toList) ("S".toList) 1 (mkRat 3 1) 1).2 =
        Except.ok ⟨"S".toList, mkRat 3 1, true, mkRat 2 1⟩) ∧
      cexDoc1 ≠ [] ∧ cexDoc1.getLast? ≠ some '\n' ∧
      splitLines (record cexDoc1 ("2025-01-01".toList) ("S".toList) 1 (mkRat 3 1) 1).1 =
        splitLines cexDoc1 ++
          (if containsSub ("## ".toList ++ "2025-01-01".toList) cexDoc1 then
            [mkRow ("S".toList) 1 1 (mkRat 3 1) (mkRat 3 1)]
          else
            [[], "## ".toList ++ "2025-01-01".toList, table_header_row, table_header_sep,
              mkRow ("S".toList) 1 1 (mkRat 3 1) (mkRat 3 1)]) :=
  ⟨by decide, by decide, by decide,
    C7_append_layout cexDoc1 ("2025-01-01".toList) ("S".toList) 1 (mkRat 3 1) 1
      ⟨"S".toList, mkRat 3 1, true, mkRat 2 1⟩
      (by decide) (by decide) (by decide) (by decide) (by decide)⟩

/-- Claim C8: for a well-formed registry section (its text and lines carry
no surrounding whitespace), `listActions` returns exactly the bullet lines
of the section, trimmed of the marker, in order; and when the section
cannot be located at all it returns the empty list (no exception). -/
theorem C8_list_actions (content : Chars) :
    (∀ sec, getActionsSection content = some sec →
      (∀ l ∈ splitChar '\n' (pyStrip sec), pyStrip l = l) →
      get_actions content = specListActions (pyStrip sec)) ∧
    (getActionsSection content = none → get_actions content = []) := by
  constructor
  · intro sec hsec hl
    simp only [get_actions, hsec]
    exact filter_map_strip_eq (splitChar '\n' (pyStrip sec)) hl
  · intro hnone
    simp only [get_actions, hnone]

theorem C8_witness :
    (getActionsSection template =
        some ("- 深蹲 (Squat)\n- 卧推 (Bench Press)\n- 硬拉 (Deadlift)\n".toList)) ∧
      get_actions template =
        specListActions (pyStrip ("- 深蹲 (Squat)\n- 卧推 (Bench Press)\n- 硬拉 (Deadlift)\n".toList)) :=
  ⟨by decide,
    (C8_list_actions template).1 ("- 深蹲 (Squat)\n- 卧推 (Bench Press)\n- 硬拉 (Deadlift)\n".toList)
      (by decide) (by decide)⟩

theorem C10_witness :
    (∀ a ∈ get_actions template,
        containsSub (lowerStr "nonexistent".toList) (lowerStr a) = false) ∧
      record template ("2025-01-01".toList) ("nonexistent".toList) 5 100 3 =
        (template, Except.error RecordErr.actionNotFound) :=
  ⟨by decide,
    C10_not_found_unchanged template ("2025-01-01".toList) ("nonexistent".toList) 5 100 3
      (by decide)⟩

/-- Claim C2 (amended): for a successful `record` whose matched action is
single-line, delimiter-free, non-blank after stripping and does not contain
the substring `Action`, whose written row does not contain `---`, and whose
document leaves the `history` scanner with a current date at the append
point (an existing occurrence of today's heading must be a real date-heading
line, and otherwise today's heading must parse as a date heading), `history`
of the new document is `history` of the old document plus exactly one new
entry whose sets, reps, weight and volume cells are the decimal renderings
of the recorded values, with the volume equal to sets × reps × weight. -/
theorem C2_roundtrip (content today q : Chars) (reps : ℤ) (kg : ℚ) (sets : ℤ)
    (r : RecordResult)
    (hok : (record content today q reps kg sets).2 = Except.ok r)
    (hApipe : ∀ c ∈ r.matchedAction, c ≠ '|')
    (hAnl : ∀ c ∈ r.matchedAction, c ≠ '\n')
    (hAstrip : pyStrip r.matchedAction ≠ [])
    (hAact : containsSub "Action".toList (pyStrip r.matchedAction) = false)
    (hdash : containsSub "---".toList (mkRow r.matchedAction sets reps kg r.volume) = false)
    (htoday : ∀ c ∈ today, c ≠ '\n')
    (hdate1 : containsSub ("## ".toList ++ today) content = true →
      ∃ d0, historyDate content = some d0)
    (hdate2 : containsSub ("## ".toList ++ today) content = false →
      ∃ d0, parseDateHead (pyStrip ("## ".toList ++ today)) = some d0) :
    (∃ d, history (record content today q reps kg sets).1 =
        history content ++
          [⟨d, pyStrip r.matchedAction, renderInt sets, renderInt reps,
            renderPyFloat kg, renderPyFloat r.volume⟩]) ∧
      r.volume = ((sets * reps : ℤ) : ℚ) * kg := by
  cases hfind : (get_actions content).find?
      (fun a => containsSub (lowerStr q) (lowerStr a)) with
  | none =>
    rw [record_none_shape content today q reps kg sets hfind] at hok
    exact absurd hok (by simp)
  | some m =>
    cases hscan : (scanPR m content).mapM parsePyFloat with
    | none =>
      rw [record_scanfail_shape content today q reps kg sets m hfind hscan] at hok
      exact absurd hok (by simp)
    | some ws =>
      have hshape := record_ok_shape content today q reps kg sets m ws hfind hscan
      have hr : RecordResult.mk m (intMulRat (sets * reps) kg)
          (decide (listMax0 ws < kg)) (listMax0 ws) = r := by
        rw [hshape] at hok
        simpa using hok
      subst hr
      have h1 : (record content today q reps kg sets).1 =
          (if containsSub ("## ".toList ++ today) content then
            content ++ '\n' :: mkRow m sets reps kg (intMulRat (sets * reps) kg)
          else
            content ++ "\n\n".toList ++ ("## ".toList ++ today) ++ '\n' :: table_header ++
              '\n' :: mkRow m sets reps kg (intMulRat (sets * reps) kg)) := by
        rw [hshape]
      have hApipe2 : ∀ c ∈ m, c ≠ '|' := hApipe
      have hAnl2 : ∀ c ∈ m, c ≠ '\n' := hAnl
      have hAstrip2 : pyStrip m ≠ [] := hAstrip
      have hAact2 : containsSub "Action".toList (pyStrip m) = false := hAact
      have hdash2 : containsSub "---".toList
          (mkRow m sets reps kg (intMulRat (sets * reps) kg)) = false := hdash
      have hrownl : ∀ c ∈ mkRow m sets reps kg (intMulRat (sets * reps) kg), c ≠ '\n' :=
        mkRow_no_nl m sets reps kg _ hAnl2
      have hrowne : mkRow m sets reps kg (intMulRat (sets * reps) kg) ≠ [] := by
        simp [mkRow]
      have hprow : parseDateHead
          (pyStrip (mkRow m sets reps kg (intMulRat (sets * reps) kg))) = none :=
        mkRow_nodate m sets reps kg _
      constructor
      · by_cases hdh : containsSub ("## ".toList ++ today) content = true
        · obtain ⟨d0, hd0⟩ := hdate1 hdh
          refine ⟨d0, ?_⟩
          rw [h1, if_pos hdh,
            history_append_row content _ d0 hd0 hrowne hrownl hprow,
            decodeRow_mkRow d0 m sets reps kg _ hApipe2 hdash2 hAstrip2 hAact2]
          rfl
        · have hdh2 : containsSub ("## ".toList ++ today) content = false := by
            simpa using hdh
          obtain ⟨d0, hd0⟩ := hdate2 hdh2
          have hhdnl : ∀ c ∈ ("## ".toList ++ today : Chars), c ≠ '\n' := by
            intro c hc
            rcases List.mem_append.mp hc with h | h
            · have h3 : ∀ c ∈ ("## ".toList : Chars), c ≠ '\n' := by decide
              exact h3 c h
            · exact htoday c h
          refine ⟨d0, ?_⟩
          rw [h1, if_neg hdh,
            history_append_section content _ _ d0 hd0 hhdnl hrowne hrownl hprow,
            decodeRow_mkRow d0 m sets reps kg _ hApipe2 hdash2 hAstrip2 hAact2]
          rfl
      · exact intMulRat_eq (sets * reps) kg

set_option maxRecDepth 200000 in
/-- Claim C2 counterexample: with the registry entry `Action`, a `record`
call succeeds (the query resolves, the row is written with volume
sets × reps × weight), yet a subsequent `history` returns no entry at all —
the written row's action cell contains the substring `Action`, so the
history scanner silently skips it and the round trip fails. -/
theorem C2_counterexample :
    (record cexActionDoc ("2025-01-01".toList) ("act".toList) 1 (mkRat 2 1) 1).2 =
        Except.ok ⟨"Action".toList, mkRat 2 1, true, 0⟩ ∧
      history (record cexActionDoc ("2025-01-01".toList) ("act".toList) 1 (mkRat 2 1) 1).1 =
        [] := by
  exact ⟨by decide, by decide⟩

set_option maxRecDepth 200000 in
theorem C2_witness :
    (∃ d, history (record cexBase ("2025-01-01".toList) ("S".toList) 2 (mkRat 5 2) 3).1 =
        history cexBase ++
          [⟨d, pyStrip ("S".toList), renderInt 3, renderInt 2, renderPyFloat (mkRat 5 2),
            renderPyFloat (intMulRat (3 * 2) (mkRat 5 2))⟩]) ∧
      intMulRat (3 * 2) (mkRat 5 2) = ((3 * 2 : ℤ) : ℚ) * mkRat 5 2 :=
  C2_roundtrip cexBase ("2025-01-01".toList) ("S".toList) 2 (mkRat 5 2) 3
    ⟨"S".toList, intMulRat (3 * 2) (mkRat 5 2), true, 0⟩
    (by decide) (by decide) (by decide) (by decide) (by decide) (by decide) (by decide)
    (fun h => absurd h (by decide))
    (fun _ => ⟨"2025-01-01".toList, by decide⟩)

/-- Claim C1 (amended): for every successful `record`, `previousMax` is the
maximum (`0.0` if none) of the float values captured by the textual
row-pattern scan for the matched action over the whole document — a regex
match against the rendering of the document, not a comparison of action
cells — and `isPR` holds exactly when the recorded weight is strictly
greater than that maximum; in particular, re-recording an exercise at a
strictly lower weight than its sole prior row yields `isPR = false` and
`previousMax` equal to that row's weight (see the witness). -/
theorem C1_previous_max (content today q : Chars) (reps : ℤ) (kg : ℚ) (sets : ℤ)
    (r : RecordResult)
    (hok : (record content today q reps kg sets).2 = Except.ok r) :
    ∃ ws, (scanPR r.matchedAction content).mapM parsePyFloat = some ws ∧
      r.previousMax = listMax0 ws ∧
      (r.isPR = true ↔ r.previousMax < kg) := by
  cases hfind : (get_actions content).find?
      (fun a => containsSub (lowerStr q) (lowerStr a)) with
  | none =>
    rw [record_none_shape content today q reps kg sets hfind] at hok
    exact absurd hok (by simp)
  | some m =>
    cases hscan : (scanPR m content).mapM parsePyFloat with
    | none =>
      rw [record_scanfail_shape content today q reps kg sets m hfind hscan] at hok
      exact absurd hok (by simp)
    | some ws =>
      have hshape := record_ok_shape content today q reps kg sets m ws hfind hscan
      have hr : RecordResult.mk m (intMulRat (sets * reps) kg)
          (decide (listMax0 ws < kg)) (listMax0 ws) = r := by
        rw [hshape] at hok
        simpa using hok
      subst hr
      refine ⟨ws, hscan, rfl, ?_⟩
      simp [decide_eq_true_iff]

set_option maxRecDepth 200000 in
/-- Claim C1 counterexample: in `cexSkewDoc` no table row's action cell
equals the matched action `S` (the claim's `previousMax` is `0.0` and, with
weight 5 > 0, its `isPR` would be true), yet the code's textual scan matches
inside the row `| x | S | 1 | 2 | 9.0 |` and `record` returns
`previousMax = 9.0` and `isPR = false`. -/
theorem C1_counterexample :
    (record cexSkewDoc ("2025-01-01".toList) ("S".toList) 2 (mkRat 5 1) 1).2 =
        Except.ok ⟨"S".toList, mkRat 10 1, false, mkRat 9 1⟩ ∧
      specPrevMax ("S".toList) cexSkewDoc = 0 ∧
      specPrevMax ("S".toList) cexSkewDoc < mkRat 5 1 ∧
      (mkRat 9 1 : ℚ) ≠ 0 := by
  refine ⟨by decide, by decide, by decide, by decide⟩

set_option maxRecDepth 200000 in
theorem C1_witness :
    ((record cexDoc1 ("2025-01-01".toList) ("S".toList) 1 (mkRat 1 1) 1).2 =
        Except.ok ⟨"S".toList, mkRat 1 1, false, mkRat 2 1⟩) ∧
      (∃ ws, (scanPR ("S".toList) cexDoc1).mapM parsePyFloat = some ws ∧
        (mkRat 2 1 : ℚ) = listMax0 ws ∧
        (false = true ↔ (mkRat 2 1 : ℚ) < mkRat 1 1)) :=
  ⟨by decide,
    C1_previous_max cexDoc1 ("2025-01-01".toList) ("S".toList) 1 (mkRat 1 1) 1
      ⟨"S".toList, mkRat 1 1, false, mkRat 2 1⟩ (by decide)⟩

end XunTracker

